import Mathlib

/-!
# Verification development for the splipy curve factory

This file gives a shallow embedding of `src/splipy/curve_factory.py` and proves
properties of the construction and fitting entry points (`polygon`, `circle`,
`circle_segment`, `interpolate`, `least_square_fit`, `cubic_curve`).

Modelling conventions:

* Python floats are modelled by exact scalars: the cubic / fitting pipeline is
  embedded over `ℚ` (none of its decisions depend on irrational values), while
  the conic constructors and `polygon`, which use `cos`, `sin` and `sqrt`, are
  embedded over `ℝ`.
* External collaborators (the `BSplineBasis` and `Curve` classes, numpy) are
  not part of the source slice; they are modelled from the specification and
  from their documented behaviour, with a doc comment flagging each such
  definition.
* Python runtime failures (raised exceptions) are modelled by `Except Err`,
  with one `Err` constructor per error kind of the specification's taxonomy
  plus the Python error kinds that the code can actually raise.
-/

namespace Splipy

/-- Error kinds.  The first seven are the specification's error taxonomy
(§7); the remainder are Python/numpy runtime error kinds that the source can
raise (`NameError` from the undefined `getBasis`, `TypeError` from slicing a
plain list, `AttributeError` from reading `.shape` of a plain list,
`IndexError` from out-of-range list indexing, `ZeroDivisionError`, and
numpy's broadcasting `ValueError` and non-square/ singular `LinAlgError`). -/
inductive Err where
  | invalidRadius
  | invalidSideCount
  | invalidAngle
  | invalidParametrization
  | singularSystem
  | underdeterminedSystem
  | dimensionMismatch
  | nameError
  | typeError
  | attributeError
  | indexError
  | zeroDivisionError
  | broadcastError
  | notSquare
  | basisArity
  deriving DecidableEq, Repr

/-- The boundary-condition enumeration of `curve_factory.Boundary`. -/
inductive Boundary where
  | free
  | natural
  | hermite
  | periodic
  | tangent
  | tangentnatural
  deriving DecidableEq, Repr

/-- A spline basis over scalar type `α`: polynomial order, knot vector, and
periodic continuity order (`-1` means a plain open basis, matching splipy's
`periodic` argument default). -/
structure SBasis (α : Type) where
  order : ℕ
  knots : List α
  periodic : ℤ := -1
  deriving DecidableEq, Repr

/-- A curve over scalar type `α`: basis, control points (rows), and the
rational flag. -/
structure SCurve (α : Type) where
  basis : SBasis α
  cp : List (List α)
  rational : Bool := false
  deriving DecidableEq, Repr

instance : Inhabited (SBasis ℚ) := ⟨⟨0, [], -1⟩⟩
instance : Inhabited (SBasis ℝ) := ⟨⟨0, [], -1⟩⟩
instance : Inhabited (SCurve ℚ) := ⟨⟨default, [], false⟩⟩
instance : Inhabited (SCurve ℝ) := ⟨⟨default, [], false⟩⟩

/-- Number of basis functions implied by a knot vector: `len(knot) - order`
for an open basis and `len(knot) - order - (periodic + 1)` for a basis that is
periodic with continuity order `periodic ≥ 0`.

Modelled from the spec: §3 "Knot vector: non-decreasing sequence of scalars of
length `n_basis + p + 1`" together with §6 "`Basis construction`: fails if knot
vector length is inconsistent with order and implied control-point count". -/
def SBasis.numFns {α : Type} (b : SBasis α) : ℕ :=
  b.knots.length - b.order - (b.periodic + 1).toNat

/-- Wrap a basis and control points into a curve, enforcing the arity contract
of the external `BSplineBasis`/`Curve` constructors.

Modelled from the spec: §6 "`Basis construction`: fails if knot vector length
is inconsistent with order and implied control-point count"; the implied
control-point count is `numFns` and the `Curve` constructor requires exactly
that many control points. -/
def mkCurve {α : Type} (b : SBasis α) (cp : List (List α)) (rational : Bool) :
    Except Err (SCurve α) :=
  if b.numFns = cp.length ∧ b.order + (b.periodic + 1).toNat ≤ b.knots.length then
    .ok ⟨b, cp, rational⟩
  else .error .basisArity

/-! ## The basis evaluator (external collaborator)

The `BSplineBasis` evaluator is an external collaborator of the source slice
(spec §2, §6).  We model it by the standard Cox–de Boor recursion. -/

/-- Knot lookup with default `0` (all uses are in range). -/
def kn (knots : List ℚ) (i : ℕ) : ℚ := knots.getD i 0

/-- Order-1 (piecewise constant) B-spline basis function.

Modelled from the spec: §6 "`Basis evaluation`: maps each parameter value to a
row of basis-function values", glossary "Basis function: piecewise-polynomial
function of the parameter, one per control point, nonzero only on a bounded
parameter interval".  The support is the half-open span `[u_i, u_{i+1})`,
closed on the right at the very end of the knot vector so that evaluation at
the domain's right endpoint yields the end-interpolation row. -/
def bspl1 (knots : List ℚ) (i : ℕ) (x : ℚ) : ℚ :=
  let m := knots.getLastD 0
  if (kn knots i ≤ x ∧ x < kn knots (i + 1)) ∨
     (x = m ∧ kn knots i < kn knots (i + 1) ∧ kn knots (i + 1) = m) then 1 else 0

/-- Cox–de Boor recursion, indexed by the order minus one (`bsplAux knots j`
is the order-`j+1` basis function).  Division by a zero denominator follows
the usual `0/0 = 0` convention, which `ℚ`'s total division provides.

Modelled from the spec: §6, the external basis evaluator. -/
def bsplAux (knots : List ℚ) : ℕ → ℕ → ℚ → ℚ
  | 0, i, x => bspl1 knots i x
  | (j + 1), i, x =>
      (x - kn knots i) / (kn knots (i + j + 1) - kn knots i) * bsplAux knots j i x +
      (kn knots (i + j + 2) - x) / (kn knots (i + j + 2) - kn knots (i + 1)) *
        bsplAux knots j (i + 1) x

/-- The order-`k` B-spline basis function `B_{i,k}` (zero for `k = 0`).

Modelled from the spec: §6, the external basis evaluator. -/
def bspl (knots : List ℚ) (k i : ℕ) (x : ℚ) : ℚ :=
  match k with
  | 0 => 0
  | (j + 1) => bsplAux knots j i x

/-- Derivatives of B-spline basis functions, by the standard recursive
derivative formula.

Modelled from the spec: §6 "`Basis.evaluate(parameterValues, derivativeOrder=0)`". -/
def bsplD (knots : List ℚ) : ℕ → ℕ → ℕ → ℚ → ℚ
  | 0, k, i, x => bspl knots k i x
  | (d + 1), k, i, x =>
      ((k : ℚ) - 1) *
        (bsplD knots d (k - 1) i x / (kn knots (i + k - 1) - kn knots i) -
         bsplD knots d (k - 1) (i + 1) x / (kn knots (i + k) - kn knots (i + 1)))

/-- One evaluation row of the basis: the `d`-th derivative of every basis
function at parameter value `x`.

Modelled from the spec: §6, the external basis evaluator.  (For a periodic
basis splipy additionally wraps basis functions around the seam; no claim in
this development depends on the entries of a periodic evaluation row, only on
row counts, so the wrapping is not modelled.) -/
def evalRow (b : SBasis ℚ) (d : ℕ) (x : ℚ) : List ℚ :=
  (List.range b.numFns).map fun i => bsplD b.knots d b.order i x

/-- Evaluate the basis (derivative order `d`) at a list of parameter values,
producing one row per value: the matrix `N` of the linear systems. -/
def evalMat (b : SBasis ℚ) (d : ℕ) (t : List ℚ) : List (List ℚ) :=
  t.map (evalRow b d)

/-! ## Numpy model: matrices, exact solve, least squares, resize, assignment -/

/-- A matrix argument as Python sees it: either a plain Python list of rows or
a numpy `ndarray`.  `interpolate` and `least_square_fit` wrap their argument
with `np.matrix(x)` and accept both; `cubic_curve` uses its argument raw, so
the distinction is observable there (2-D slicing and `.shape` only exist on
the `ndarray` side). -/
inductive PyMat where
  | pylist (rows : List (List ℚ))
  | ndarray (rows : List (List ℚ))
  deriving DecidableEq, Repr

/-- The underlying rows of either kind of matrix argument. -/
def PyMat.rows : PyMat → List (List ℚ)
  | .pylist r => r
  | .ndarray r => r

/-- Column count of a row list (all rows used by the source are rectangular). -/
def colsOf (rows : List (List ℚ)) : ℕ := (rows.headD []).length

/-- View a row list as a Mathlib matrix (entries outside the lists are `0`). -/
def rowsToMat (m n : ℕ) (rows : List (List ℚ)) : Matrix (Fin m) (Fin n) ℚ :=
  Matrix.of fun i j => (rows.getD i.1 []).getD j.1 0

/-- Flatten a Mathlib matrix back into a row list. -/
def matToRows {m n : ℕ} (A : Matrix (Fin m) (Fin n) ℚ) : List (List ℚ) :=
  (List.finRange m).map fun i => (List.finRange n).map fun j => A i j

/-- Computable matrix inverse by determinant and adjugate ( equals `A⁻¹` for
invertible `A`; the singular case is never reached by the proofs). -/
def qinv {n : ℕ} (A : Matrix (Fin n) (Fin n) ℚ) : Matrix (Fin n) (Fin n) ℚ :=
  (A.det)⁻¹ • A.adjugate

/-- Model of `np.linalg.solve(N, X)`: requires a square coefficient matrix
(else `LinAlgError`, modelled as `notSquare`), fails on a singular matrix
(`LinAlgError`, the specification's `SingularSystem`), and otherwise returns
the exact solution.

Modelled from numpy's documented behaviour (numpy is an external library). -/
def npSolve (N X : List (List ℚ)) : Except Err (List (List ℚ)) :=
  let m := N.length
  if colsOf N ≠ m then .error .notSquare
  else
    let A := rowsToMat m m N
    let B := rowsToMat m (colsOf X) X
    if A.det = 0 then .error .singularSystem
    else .ok (matToRows (qinv A * B))

/-- Model of `np.linalg.lstsq(N, X)`: returns the least-squares solution, and
for an underdetermined system (fewer rows than columns) the minimum-norm
solution; it does not raise for any relation between the row and column
counts of `N` (a mismatch between the row counts of `N` and `X` would be a
shape error in numpy, but no call site here can produce one).  The closed
forms below assume full rank, the generic case (the rank-deficient branch of
LAPACK is not modelled; no claim depends on it).

Modelled from numpy's documented behaviour: "If `a` is ... under-determined,
the minimum-norm least-squares solution is returned"; `LinAlgError` is raised
only when the computation does not converge, which cannot happen in exact
arithmetic. -/
def npLstsq (N X : List (List ℚ)) : List (List ℚ) :=
  let m := N.length
  let k := colsOf N
  let d := colsOf X
  let A := rowsToMat m k N
  let B := rowsToMat m d X
  if m ≤ k then matToRows (A.transpose * qinv (A * A.transpose) * B)
  else matToRows (qinv (A.transpose * A) * (A.transpose * B))

/-- Model of `np.resize(x, (m, d))` on a rectangular row list: the data is
repeated cyclically to fill the requested number of rows.

Modelled from numpy's documented behaviour ("repeated copies of `a`"). -/
def npResizeRows (rows : List (List ℚ)) (m : ℕ) : List (List ℚ) :=
  (List.range m).map fun i => rows.getD (i % rows.length) []

/-- Model of the slice assignment `x[start:,:] = src`: the rows from `start`
on are replaced by `src`, with numpy broadcasting of a single source row
across all target rows; any other row-count mismatch raises a broadcasting
`ValueError`.

Modelled from numpy's documented broadcasting behaviour. -/
def npAssignFrom (rows : List (List ℚ)) (start : ℕ) (src : List (List ℚ)) :
    Except Err (List (List ℚ)) :=
  let need := rows.length - start
  if src.length = need then .ok (rows.take start ++ src)
  else if src.length = 1 then .ok (rows.take start ++ List.replicate need (src.headD []))
  else .error .broadcastError

/-! ## `interpolate` and `least_square_fit` -/

/-- Greville abscissae of a basis, the default parameter sample of
`interpolate`.

Modelled from the spec: §6 "`Greville abscissae`: `Basis.greville() ->
sequence of scalars`"; each abscissa is the average of the `order - 1`
interior knots associated with the basis function. -/
def greville (b : SBasis ℚ) : List ℚ :=
  (List.range b.numFns).map fun i =>
    ((List.range (b.order - 1)).map fun j => kn b.knots (i + 1 + j)).sum /
      ((b.order : ℚ) - 1)

/-- Embedding of `curve_factory.interpolate(x, basis, t=None)`.  The argument
is wrapped with `np.matrix(x)` (both plain lists and arrays are accepted), the
basis is evaluated at `t` (defaulting to the Greville points), and the square
system is solved exactly. -/
def interpolate (x : PyMat) (basis : SBasis ℚ) (t? : Option (List ℚ)) :
    Except Err (SCurve ℚ) := do
  let xr := x.rows
  let t := t?.getD (greville basis)
  let N := evalMat basis 0 t
  let cp ← npSolve N xr
  mkCurve basis cp false

/-- Embedding of `curve_factory.least_square_fit(x, basis, t)`.  The argument
is wrapped with `np.matrix(x)`, the basis is evaluated at `t`, and
`np.linalg.lstsq` is applied.  Note that the source performs no comparison of
the row count against the basis size: there is no code path raising an
`UnderdeterminedSystem` error. -/
def least_square_fit (x : PyMat) (basis : SBasis ℚ) (t : List ℚ) :
    Except Err (SCurve ℚ) := do
  let xr := x.rows
  let N := evalMat basis 0 t
  mkCurve basis (npLstsq N xr) false

/-! ## `cubic_curve` -/

/-- Squared Euclidean distance of two coordinate rows passed through the
square-root function `sq` (models `np.linalg.norm(x1 - x0)`; the square root
of the float implementation is abstracted as `sq` because no claim depends on
its values, only on the control flow around it). -/
def rowDist (sq : ℚ → ℚ) (a b : List ℚ) : ℚ :=
  sq (List.zipWith (fun u v => (v - u) ^ 2) a b).sum

/-- Tail of the cumulative parameter list: running sums of consecutive row
distances. -/
def cumDistGo (sq : ℚ → ℚ) (acc : ℚ) (prev : List ℚ) :
    List (List ℚ) → List ℚ
  | [] => []
  | r :: rs => (acc + rowDist sq prev r) :: cumDistGo sq (acc + rowDist sq prev r) r rs

/-- The default parameter sample of `cubic_curve`: `t = [0.0]` followed by the
cumulative Euclidean distances between consecutive rows of `x`. -/
def cumDist (sq : ℚ → ℚ) (rows : List (List ℚ)) : List ℚ :=
  0 :: (match rows with
        | [] => []
        | r :: rs => cumDistGo sq 0 r rs)

/-- Model of `np.resize(x, (x.shape[0] + extra, x.shape[1]))` applied to the
`x` argument of `cubic_curve`: reading `.shape` of a plain Python list raises
`AttributeError`; an ndarray is resized (row-cyclically). -/
def npResizePy (x : PyMat) (extra : ℕ) : Except Err (List (List ℚ)) :=
  match x with
  | .pylist _ => .error .attributeError
  | .ndarray rows => .ok (npResizeRows rows (rows.length + extra))

/-- Resolution of the `t` argument of `cubic_curve`: a supplied sample is
used as is, otherwise `t` defaults to cumulative Euclidean distance over the
rows of `x` — the slicing `x[:-1,:]` of that computation raises `TypeError`
on a plain Python list. -/
def resolveT (x : PyMat) (t? : Option (List ℚ)) (sq : ℚ → ℚ) :
    Except Err (List ℚ) :=
  match t? with
  | some t => pure t
  | none =>
    match x with
    | .pylist _ => Except.error .typeError
    | .ndarray rows => pure (cumDist sq rows)

/-- The boundary-adjusted knot vector of `cubic_curve`:
`knot = [t[0]]*3 + list(t) + [t[-1]]*3`, then for FREE `del knot[-5]`
followed by `del knot[4]`, and for HERMITE a sorted merge with the interior
parameter values `t[1:-1]`. -/
def cubicKnot (boundary : Boundary) (t : List ℚ) : List ℚ :=
  let knot0 := List.replicate 3 (t.headD 0) ++ t ++ List.replicate 3 (t.getLastD 0)
  if boundary = .free then
    (knot0.eraseIdx (knot0.length - 5)).eraseIdx 4
  else if boundary = .hermite then
    List.insertionSort (· ≤ ·) (knot0 ++ (t.drop 1).dropLast)
  else knot0

/-- The basis of `cubic_curve`: for PERIODIC the two knots nearest each end
are overwritten using `t[-3] - t[-1]`, `t[-2] - t[-1]`, `t[-1] + t[1]`,
`t[-1] + t[2]` (Python raises `IndexError` when `t` has fewer than three
entries) and the basis is built with periodic continuity order 1; otherwise
the basis is `BSplineBasis(4, knot)`. -/
def cubicBasis (boundary : Boundary) (t : List ℚ) : Except Err (SBasis ℚ) :=
  let knot := cubicKnot boundary t
  let tn := t.length
  if boundary = .periodic then
    if tn < 3 then Except.error .indexError
    else
      let tm1 := t.getLastD 0
      pure ⟨4, ((((knot.set 0 (t.getD (tn - 3) 0 - tm1)).set 1
                    (t.getD (tn - 2) 0 - tm1)).set (knot.length - 2)
                    (tm1 + t.getD 1 0)).set (knot.length - 1)
                    (tm1 + t.getD 2 0)), 1⟩
  else pure ⟨4, knot, -1⟩

/-- The first-derivative constraint rows: two rows at `t[0]`, `t[-1]` for
TANGENT, one row at `t[0]` for TANGENTNATURAL; the HERMITE branch of the
source evaluates `getBasis(t, d=1)`, and the name `getBasis` is defined
nowhere in the module, so Python raises `NameError` there. -/
def derivRows1 (boundary : Boundary) (basis : SBasis ℚ) (t : List ℚ) :
    Except Err (List (List ℚ) × ℕ) :=
  if boundary = .tangent then
    pure (evalMat basis 1 [t.headD 0, t.getLastD 0], 2)
  else if boundary = .tangentnatural then
    pure (evalMat basis 1 [t.headD 0], 1)
  else
    Except.error Err.nameError

/-- The first constraint block of `cubic_curve` (source lines 313–327): for
TANGENT / HERMITE / TANGENTNATURAL compute the derivative rows, resize `N`
and `x`, assign `x[n:,:] = tangents` (with numpy broadcasting) and
`N[n:,:] = dn`.  The resize of `x` reads `x.shape` and therefore fails on a
plain Python list; assigning `tangents = None` fails with `TypeError`. -/
def applyDeriv1 (boundary : Boundary) (basis : SBasis ℚ) (t : List ℚ) (n : ℕ)
    (N : List (List ℚ)) (x : PyMat) (tangents : Option (List (List ℚ))) :
    Except Err (List (List ℚ) × PyMat) :=
  if boundary = .tangent ∨ boundary = .hermite ∨ boundary = .tangentnatural then do
    let de ← derivRows1 boundary basis t
    let Nr := npResizeRows N (N.length + de.2)
    let xr ← npResizePy x de.2
    let x2 ← match tangents with
      | none => Except.error Err.typeError
      | some tg => npAssignFrom xr n tg
    let N2 ← npAssignFrom Nr n de.1
    pure (N2, PyMat.ndarray x2)
  else
    pure (N, x)

/-- The second constraint block of `cubic_curve` (source lines 329–340): for
NATURAL / TANGENTNATURAL append second-derivative rows with zero right-hand
side (`N[-new:,:] = ddn; x[-new:,:] = 0`); the resize of `x` reads `x.shape`
and therefore fails on a plain Python list. -/
def applyDeriv2 (boundary : Boundary) (basis : SBasis ℚ) (t : List ℚ)
    (N1 : List (List ℚ)) (x1 : PyMat) :
    Except Err (List (List ℚ) × List (List ℚ)) :=
  if boundary = .natural ∨ boundary = .tangentnatural then
    let dd : List (List ℚ) × ℕ :=
      if boundary = .natural then
        (evalMat basis 2 [t.headD 0, t.getLastD 0], 2)
      else (evalMat basis 2 [t.getLastD 0], 1)
    let Nr := npResizeRows N1 (N1.length + dd.2)
    do
      let xr ← npResizePy x1 dd.2
      let N4 ← npAssignFrom Nr (Nr.length - dd.2) dd.1
      pure (N4, xr.take (xr.length - dd.2) ++
        List.replicate dd.2 (List.replicate (colsOf xr) 0))
  else
    pure (N1, x1.rows)

/-- Assembly of the `cubic_curve` linear system: resolve `t`, build the
boundary-adjusted basis, take one basis row per parameter sample, and append
the constraint blocks. -/
def cubicSystem (x : PyMat) (boundary : Boundary) (t? : Option (List ℚ))
    (tangents : Option (List (List ℚ))) (sq : ℚ → ℚ) :
    Except Err (SBasis ℚ × List (List ℚ) × List (List ℚ)) := do
  let t ← resolveT x t? sq
  let basis ← cubicBasis boundary t
  let r1 ← applyDeriv1 boundary basis t x.rows.length (evalMat basis 0 t) x tangents
  let r2 ← applyDeriv2 boundary basis t r1.1 r1.2
  pure (basis, r2.1, r2.2)

/-- Embedding of `curve_factory.cubic_curve`: assemble the system, solve it
with `np.linalg.solve`, and wrap the control points into a curve. -/
def cubic_curve (x : PyMat) (boundary : Boundary) (t? : Option (List ℚ))
    (tangents : Option (List (List ℚ))) (sq : ℚ → ℚ) :
    Except Err (SCurve ℚ) := do
  let (b, N, X) ← cubicSystem x boundary t? tangents sq
  let cp ← npSolve N X
  mkCurve b cp false

/-- Basis of an assembled cubic system (`default` on error). -/
def sysBasis (r : Except Err (SBasis ℚ × List (List ℚ) × List (List ℚ))) :
    SBasis ℚ :=
  match r with
  | .ok s => s.1
  | .error _ => default

/-- Coefficient rows of an assembled cubic system (`[]` on error). -/
def sysN (r : Except Err (SBasis ℚ × List (List ℚ) × List (List ℚ))) :
    List (List ℚ) :=
  match r with
  | .ok s => s.2.1
  | .error _ => []

/-- Right-hand-side rows of an assembled cubic system (`[]` on error). -/
def sysX (r : Except Err (SBasis ℚ × List (List ℚ) × List (List ℚ))) :
    List (List ℚ) :=
  match r with
  | .ok s => s.2.2
  | .error _ => []

/-! ## The rational conic constructors and `polygon` (over `ℝ`)

These embeddings construct the curve in its native 2-D plane, i.e. the value
handed to `flip_and_move_plane_geometry`; the final rigid placement into an
arbitrary plane (`center`, `normal`) is an external collaborator (spec §6,
"Plane placement") and with the default arguments it leaves the control
structure unchanged, so it is not modelled. -/

open Real in
/-- Scaling of a rational curve's control points by a radius, the effect of
`result *= r` on the homogeneous coordinates.

Modelled from the spec: §4.3, the x/y coordinates of a conic control point
equal `weight · r · (cos θ, sin θ)` — scaling multiplies the geometric
(homogeneous) columns and leaves the weight column untouched. -/
noncomputable def scaleGeo (r : ℝ) (cp : List (List ℝ)) : List (List ℝ) :=
  cp.map fun p => [r * p.getD 0 0, r * p.getD 1 0, p.getD 2 0]

open Real in
/-- Embedding of `curve_factory.circle(r, type=...)`: the 8-control-point
quadratic rational parametrization (`p2C0` / `C0p2`), the 12-control-point
quartic rational parametrization (`p4C1` / `C1p4`), and a `ValueError`
(`InvalidParametrization` in the specification's taxonomy) for any other
tag.  A non-positive radius raises first. -/
noncomputable def circle (r : ℝ) (ty : String) : Except Err (SCurve ℝ) :=
  if r ≤ 0 then .error .invalidRadius
  else if ty = "p2C0" ∨ ty = "C0p2" then
    let w : ℝ := 1 / Real.sqrt 2
    let cp : List (List ℝ) :=
      [[1, 0, 1], [w, w, w], [0, 1, 1], [-w, w, w],
       [-1, 0, 1], [-w, -w, w], [0, -1, 1], [w, -w, w]]
    let knot : List ℝ :=
      ([-1, 0, 0, 1, 1, 2, 2, 3, 3, 4, 4, 5] : List ℝ).map fun v => v / 4 * (2 * π)
    mkCurve ⟨3, knot, 0⟩ (scaleGeo r cp) true
  else if ty = "p4C1" ∨ ty = "C1p4" then
    let w : ℝ := 2 * Real.sqrt 2 / 3
    let a : ℝ := 1 / 2 / Real.sqrt 2
    let b : ℝ := 1 / 6 * (4 * Real.sqrt 2 - 1)
    let cp : List (List ℝ) :=
      [[1, -a, 1], [1, a, 1], [b, b, w],
       [a, 1, 1], [-a, 1, 1], [-b, b, w],
       [-1, a, 1], [-1, -a, 1], [-b, -b, w],
       [-a, -1, 1], [a, -1, 1], [b, -b, w]]
    let knot : List ℝ :=
      ([-1, -1, 0, 0, 0, 1, 1, 1, 2, 2, 2, 3, 3, 3, 4, 4, 4, 5, 5] : List ℝ).map
        fun v => v / 4 * (2 * π)
    mkCurve ⟨5, knot, 1⟩ (scaleGeo r cp) true
  else .error .invalidParametrization

open Real in
/-- Embedding of `curve_factory.circle_segment(theta, r)`: validates the
angle and the radius, delegates `theta == 2π` to the full circle, computes
`knot_spans = int(ceil(theta / (2π/3)))`, builds the knot vector
`[0,0,0,1,1,...,n,n,n]` rescaled to `[0, theta]`, and generates
`(knot_spans-1)*2 + 3` control points at angle steps of
`dt = theta/knot_spans/2`, with weights alternating between `1` and
`cos(dt)`.  With `knot_spans = 0` the line `dt = theta/knot_spans/2` raises
`ZeroDivisionError`; the arity check of the curve constructor models the
failure of `BSplineBasis`/`Curve` on the degenerate data produced for
negative spans. -/
noncomputable def circle_segment (theta r : ℝ) : Except Err (SCurve ℝ) :=
  if 2 * π < |theta| then .error .invalidAngle
  else if r ≤ 0 then .error .invalidRadius
  else if theta = 2 * π then circle r "p2C0"
  else
    let ks : ℤ := ⌈theta / (2 * π / 3)⌉
    let raw : List ℤ :=
      [0] ++ ((List.range (ks + 1).toNat).map fun i => [(i : ℤ), (i : ℤ)]).flatten ++ [ks]
    let knot : List ℝ := raw.map fun v => (v : ℝ) / (ks : ℝ) * theta
    if ks = 0 then .error .zeroDivisionError
    else
      let dt : ℝ := theta / (ks : ℝ) / 2
      let cp : List (List ℝ) := (List.range ((ks - 1) * 2 + 3).toNat).map fun (i : ℕ) =>
        [r * Real.cos (i * dt), r * Real.sin (i * dt),
         1 - (Nat.cast (i % 2) : ℝ) * (1 - Real.cos dt)]
      mkCurve ⟨3, knot, -1⟩ cp true

/-- Euclidean distance between two coordinate rows (`zip` truncates to the
shorter row, as in the source's coordinate loop). -/
noncomputable def distR (a b : List ℝ) : ℝ :=
  Real.sqrt (List.zipWith (fun u v => (v - u) ^ 2) a b).sum

/-- Running cumulative-distance knots of `polygon`, starting from `acc` with
previous point `prev`; the final knot is duplicated (the source's trailing
`knot.append(knot[-1])`). -/
noncomputable def cumFrom (acc : ℝ) (prev : List ℝ) : List (List ℝ) → List ℝ
  | [] => [acc]
  | p :: ps => (acc + distR prev p) :: cumFrom (acc + distR prev p) p ps

/-- The knot vector of `polygon`: `[0, 0]`, then the cumulative Euclidean
distance between consecutive input points, with the last knot duplicated.
Note that the source computes this from the input points *before* any
`relative` accumulation. -/
noncomputable def polygonKnot (pts : List (List ℝ)) : List ℝ :=
  0 :: 0 :: cumFrom 0 (pts.headD []) pts.tail

/-- Accumulation pass for `relative=True`: each point becomes the coordinate
sum of itself and the accumulated previous point. -/
noncomputable def accumGo (prev : List ℝ) : List (List ℝ) → List (List ℝ)
  | [] => []
  | p :: ps => List.zipWith (· + ·) prev p :: accumGo (List.zipWith (· + ·) prev p) ps

/-- The control points of `polygon` with `relative=True`. -/
noncomputable def accumRel : List (List ℝ) → List (List ℝ)
  | [] => []
  | p :: ps => p :: accumGo p ps

/-- Embedding of `curve_factory.polygon(points, relative=...)`: an order-2
basis on the cumulative-distance knot vector (computed from the raw input
points), whose control points are the input points, accumulated first when
`relative` is set.  (The arity contract `len(knot) = n + 2` holds by
construction, so the curve is built directly.) -/
noncomputable def polygon (pts : List (List ℝ)) (relative : Bool) : SCurve ℝ :=
  ⟨⟨2, polygonKnot pts, -1⟩, if relative then accumRel pts else pts, false⟩

/-- Consecutive differences of a list: the spacings of a knot vector. -/
noncomputable def diffs (l : List ℝ) : List ℝ :=
  List.zipWith (fun a b => b - a) l l.tail

/-- Euclidean distances between consecutive points of a point list. -/
noncomputable def pairDists (pts : List (List ℝ)) : List ℝ :=
  List.zipWith distR pts pts.tail

/-! ## Claim C2: the HERMITE branch of `cubic_curve` -/

/-- C2: the claim states that for `n` points with the HERMITE boundary regime
and `n` supplied tangent vectors, `cubic_curve` appends `n` first-derivative
rows with the tangent vectors as right-hand sides, solves, and returns a
curve.  The code cannot do this: its HERMITE branch evaluates
`getBasis(t, d=1)`, and the name `getBasis` is defined nowhere in the module,
so Python raises `NameError` before any rows are appended and no curve is
returned.  This theorem evaluates the embedding at a concrete failing input
(3 points, 3 tangent vectors). -/
theorem C2_hermite_raises_nameError :
    cubic_curve (.ndarray [[0, 0], [1, 1], [2, 0]]) .hermite (some [0, 1, 2])
      (some [[1, 0], [1, 0], [1, 0]]) id = .error .nameError := by rfl

/-! ## Claim C6: the FREE knot vector -/

/-- The knot vector that claim C6 prescribes for the FREE boundary regime:
from the padded sequence (the parameter values with first and last repeated
three times at each end) remove exactly the two knots at positions `4` and
`t.length + 1` (the latter is Python index `-5` of the padded sequence), both
positions read in the padded sequence itself.  When the two positions
coincide only one element can be removed. -/
def specFreeKnot (t : List ℚ) : List ℚ :=
  let P := List.replicate 3 (t.headD 0) ++ t ++ List.replicate 3 (t.getLastD 0)
  let i := min 4 (t.length + 1)
  let j := max 4 (t.length + 1)
  if i = j then P.take i ++ P.drop (i + 1)
  else P.take i ++ ((P.take j).drop (i + 1)) ++ P.drop (j + 1)

/-- Erasing in a concatenation exactly at the junction removes the head of
the second part. -/
theorem eraseIdx_at_append (s l : List ℚ) (w : ℚ) :
    (s ++ w :: l).eraseIdx s.length = s ++ l := by
  induction s with
  | nil => rfl
  | cons x xs ih => simpa using ih

/-- For the FREE and PERIODIC regimes no constraint rows are appended: when
the basis construction succeeds, the assembled system is one basis row per
parameter sample with the input rows as right-hand side. -/
theorem cubicSystem_no_constraints (bd : Boundary) (x : PyMat)
    (tg : Option (List (List ℚ))) (sq : ℚ → ℚ) (t : List ℚ) (bp : SBasis ℚ)
    (hbd : bd = .free ∨ bd = .periodic) (hb : cubicBasis bd t = .ok bp) :
    cubicSystem x bd (some t) tg sq = .ok (bp, evalMat bp 0 t, x.rows) := by
  rcases hbd with h | h <;> subst h <;>
    simp [cubicSystem, resolveT, applyDeriv1, applyDeriv2, hb]

/-- The FREE knot vector equals the claim's simultaneous removal for samples
of length at least 4. -/
theorem free_knot_spec_of_ge_four (a b u v : ℚ) (s : List ℚ) :
    cubicKnot .free (a :: b :: (s ++ [u, v])) =
      specFreeKnot (a :: b :: (s ++ [u, v])) := by
  simp only [cubicKnot, specFreeKnot]
  simp [eraseIdx_at_append]

/-- C6 (counterexample): for the three-point parameter sample `t = [0, 1, 2]`
the code's FREE knot vector is `[0,0,0,0,2,2,2]` — the sequential deletions
`del knot[-5]; del knot[4]` remove the knots at padded positions 4 and 5 —
whereas removing "the two knots at positions index 4 and index −5 of the
padded sequence" (both positions equal 4 here) yields `[0,0,0,0,2,2,2,2]`.
The claim's description of the removal therefore fails at `n = 3`. -/
theorem C6_counterexample_three_points :
    sysBasis (cubicSystem (.ndarray [[0], [1], [2]]) .free (some [0, 1, 2]) none id) ≠
      ⟨4, specFreeKnot [0, 1, 2], -1⟩ := by decide

/-- C6 (amended): for every parameter sample of length `n = 2` or `n ≥ 4`,
the FREE knot vector of `cubic_curve` is the padded sequence (first and last
parameter value repeated three times at each end, `n + 6` candidate knots)
with exactly the two knots at positions `4` and `n + 1` (index `−5`) of the
padded sequence removed; at `n = 3` the two deletions interact and the code
instead removes the knots at padded positions 4 and 5. -/
theorem C6_free_knot_removal (x : PyMat) (tg : Option (List (List ℚ)))
    (sq : ℚ → ℚ) (a b u v p q : ℚ) (s : List ℚ) :
    sysBasis (cubicSystem x .free (some (a :: b :: (s ++ [u, v]))) tg sq) =
      ⟨4, specFreeKnot (a :: b :: (s ++ [u, v])), -1⟩ ∧
    sysBasis (cubicSystem x .free (some [p, q]) tg sq) =
      ⟨4, specFreeKnot [p, q], -1⟩ := by
  constructor
  · rw [cubicSystem_no_constraints .free x tg sq (a :: b :: (s ++ [u, v]))
      ⟨4, cubicKnot .free (a :: b :: (s ++ [u, v])), -1⟩ (Or.inl rfl) rfl]
    rw [free_knot_spec_of_ge_four]
    rfl
  · rw [cubicSystem_no_constraints .free x tg sq [p, q]
      ⟨4, cubicKnot .free [p, q], -1⟩ (Or.inl rfl) rfl]
    rfl

/-! ## Claim C7: the PERIODIC knot vector and system -/

/-- The knot vector that claim C7 describes for the PERIODIC boundary regime:
the padded sequence with the two knots nearest the start overwritten by
`t[-3] - t[-1]` and `t[-2] - t[-1]` and the two knots nearest the end
overwritten by `t[-1] + t[1]` and `t[-1] + t[2]`. -/
def periodicExpectedKnot (t : List ℚ) : List ℚ :=
  (t.getD (t.length - 3) 0 - t.getLastD 0) ::
  (t.getD (t.length - 2) 0 - t.getLastD 0) ::
  t.headD 0 ::
  (t ++ [t.getLastD 0, t.getLastD 0 + t.getD 1 0, t.getLastD 0 + t.getD 2 0])

/-- C7 (counterexample): the claim quantifies over every parameter sample,
but for a two-entry sample the index accesses `t[-3]` and `t[2]` raise
`IndexError`: nothing is overwritten, no basis is constructed, and no system
is assembled. -/
theorem C7_counterexample_two_points :
    cubic_curve (.ndarray [[0], [1]]) .periodic (some [0, 1]) none id =
      .error .indexError := by rfl

/-- C7 (amended): for every parameter sample with at least three entries, the
PERIODIC regime of `cubic_curve` assembles exactly the system described by
the claim: the two knots nearest the start are overwritten with
`t[-3]-t[-1]` and `t[-2]-t[-1]`, the two knots nearest the end with
`t[-1]+t[1]` and `t[-1]+t[2]`, the basis has order 4 and periodic continuity
order 1, and no extra constraint rows are appended — `N` consists of the
basis rows at the samples only and the right-hand side is exactly the input
point matrix. -/
theorem C7_periodic_system (x : PyMat) (tg : Option (List (List ℚ)))
    (sq : ℚ → ℚ) (a b c : ℚ) (r : List ℚ) :
    cubicSystem x .periodic (some (a :: b :: c :: r)) tg sq =
      .ok (⟨4, periodicExpectedKnot (a :: b :: c :: r), 1⟩,
           evalMat ⟨4, periodicExpectedKnot (a :: b :: c :: r), 1⟩ 0 (a :: b :: c :: r),
           x.rows) := by
  have h : ¬ (r.length + 1 + 1 + 1 < 3) := by omega
  have hb : cubicBasis .periodic (a :: b :: c :: r) =
      .ok ⟨4, periodicExpectedKnot (a :: b :: c :: r), 1⟩ := by
    simp only [cubicBasis, cubicKnot, periodicExpectedKnot]
    simp [h]
    rfl
  exact cubicSystem_no_constraints .periodic x tg sq _ _ (Or.inr rfl) hb

/-! ## Claim C1: `least_square_fit` and under/exactly-determined systems -/

/-- Control points of a curve-construction result (`[]` on error). -/
def curveCp (r : Except Err (SCurve ℚ)) : List (List ℚ) :=
  match r with
  | .ok c => c.cp
  | .error _ => []

/-- Reading back the rows of a flattened matrix gives the same matrix. -/
theorem rowsToMat_matToRows {m n : ℕ} (A : Matrix (Fin m) (Fin n) ℚ) :
    rowsToMat m n (matToRows A) = A := by
  ext i j
  simp [rowsToMat, matToRows, List.getD_eq_getElem?_getD, List.getElem?_map]

/-- The determinant-adjugate inverse is a right inverse for a matrix with
nonzero determinant. -/
theorem mul_qinv_cancel {n : ℕ} (M : Matrix (Fin n) (Fin n) ℚ) (h : M.det ≠ 0) :
    M * qinv M = 1 := by
  unfold qinv
  rw [Matrix.mul_smul, Matrix.mul_adjugate, smul_smul, inv_mul_cancel₀ h, one_smul]

/-- The least-squares solution of a square invertible system solves it
exactly. -/
theorem lstsq_square_exact {m d : ℕ} (A : Matrix (Fin m) (Fin m) ℚ)
    (B : Matrix (Fin m) (Fin d) ℚ) (h : A.det ≠ 0) :
    A * (A.transpose * qinv (A * A.transpose) * B) = B := by
  have hAAt : (A * A.transpose).det ≠ 0 := by
    rw [Matrix.det_mul, Matrix.det_transpose]
    exact mul_ne_zero h h
  calc A * (A.transpose * qinv (A * A.transpose) * B)
      = (A * A.transpose * qinv (A * A.transpose)) * B := by
        rw [← Matrix.mul_assoc, ← Matrix.mul_assoc]
    _ = B := by rw [mul_qinv_cancel _ hAAt, Matrix.one_mul]

/-- Row count of the least-squares solution in the (under- or exactly-)
determined regime. -/
theorem npLstsq_len (N X : List (List ℚ)) (h : N.length ≤ colsOf N) :
    (npLstsq N X).length = colsOf N := by
  unfold npLstsq
  rw [if_pos h]
  simp [matToRows]

/-- Exactness of `npLstsq` on a square system with invertible coefficient
matrix. -/
theorem npLstsq_square_exact (N X : List (List ℚ)) (h : colsOf N = N.length)
    (hdet : (rowsToMat N.length N.length N).det ≠ 0) :
    rowsToMat N.length N.length N * rowsToMat N.length (colsOf X) (npLstsq N X) =
      rowsToMat N.length (colsOf X) X := by
  unfold npLstsq
  rw [h]
  rw [if_pos (le_refl _), rowsToMat_matToRows]
  exact lstsq_square_exact _ _ hdet

/-- C1 (counterexample): the claim states that `least_square_fit` fails with
an `UnderdeterminedSystem` error whenever the basis has more functions than
the point matrix has rows.  The source performs no such check and
`np.linalg.lstsq` accepts an underdetermined system, returning its
minimum-norm solution: with one sample row and a two-function basis,
`least_square_fit` returns a curve (control points `[[5], [0]]`), not an
error. -/
theorem C1_counterexample_underdetermined_returns_curve :
    least_square_fit (.pylist [[5]]) ⟨2, [0, 0, 1, 1], -1⟩ [0] =
      .ok ⟨⟨2, [0, 0, 1, 1], -1⟩, [[5], [0]], false⟩ := by
  have hN : evalMat ⟨2, [0, 0, 1, 1], -1⟩ 0 [0] = [[1, 0]] := by
    norm_num [evalMat, evalRow, SBasis.numFns, bsplD, bspl, bsplAux, bspl1, kn,
      List.range_succ]
  have hf2 : List.finRange 2 = [0, 1] := by decide
  have hf1 : List.finRange 1 = [0] := by decide
  unfold least_square_fit
  rw [hN]
  have hA : rowsToMat 1 2 [[(1 : ℚ), 0]] * (rowsToMat 1 2 [[(1 : ℚ), 0]]).transpose = 1 := by
    ext i j
    fin_cases i; fin_cases j
    simp [Matrix.mul_apply, Fin.sum_univ_succ, rowsToMat]
  have hL : npLstsq [[1, 0]] [[(5 : ℚ)]] = [[5], [0]] := by
    unfold npLstsq
    norm_num [colsOf]
    show matToRows ((rowsToMat 1 2 [[(1 : ℚ), 0]]).transpose *
        qinv (rowsToMat 1 2 [[(1 : ℚ), 0]] * (rowsToMat 1 2 [[(1 : ℚ), 0]]).transpose) *
        rowsToMat 1 1 [[(5 : ℚ)]]) = [[5], [0]]
    rw [hA]
    have hq : qinv (1 : Matrix (Fin 1) (Fin 1) ℚ) = 1 := by simp [qinv]
    rw [hq, Matrix.mul_one]
    simp [matToRows, hf2, hf1, Matrix.mul_apply, Fin.sum_univ_succ, rowsToMat]
  simp only [PyMat.rows]
  rw [hL]
  rfl

/-- C1 (amended): `least_square_fit` performs no row-count validation and
never raises `UnderdeterminedSystem` — with fewer sample rows than basis
functions, `np.linalg.lstsq` returns the minimum-norm solution and a curve is
returned (see the counterexample).  The claim's other half is correct and is
proved here: when the evaluation matrix is square (sample count equal to
basis size) and invertible, `least_square_fit` returns a curve whose control
points reproduce the data exactly — zero residual. -/
theorem C1_square_fit_is_exact_interpolation (basis : SBasis ℚ) (t : List ℚ)
    (x : PyMat)
    (hor : basis.order + (basis.periodic + 1).toNat ≤ basis.knots.length)
    (hnb : basis.numFns = colsOf (evalMat basis 0 t))
    (hsq : colsOf (evalMat basis 0 t) = t.length)
    (hdet : (rowsToMat t.length t.length (evalMat basis 0 t)).det ≠ 0) :
    (least_square_fit x basis t).isOk = true ∧
    rowsToMat t.length t.length (evalMat basis 0 t) *
        rowsToMat t.length (colsOf x.rows) (curveCp (least_square_fit x basis t)) =
      rowsToMat t.length (colsOf x.rows) x.rows := by
  have hlen : (evalMat basis 0 t).length = t.length := by simp [evalMat]
  have hcols : colsOf (evalMat basis 0 t) = (evalMat basis 0 t).length := by
    rw [hsq, hlen]
  have hlenL : (npLstsq (evalMat basis 0 t) x.rows).length = colsOf (evalMat basis 0 t) :=
    npLstsq_len _ _ (le_of_eq hcols.symm)
  have hok : least_square_fit x basis t =
      .ok ⟨basis, npLstsq (evalMat basis 0 t) x.rows, false⟩ := by
    unfold least_square_fit mkCurve
    rw [if_pos ⟨hnb.trans hlenL.symm, hor⟩]
  rw [hok]
  refine ⟨rfl, ?_⟩
  have key := npLstsq_square_exact (evalMat basis 0 t) x.rows hcols
  rw [hlen] at key
  exact key hdet

/-- C1 (witness): the exact-interpolation theorem applied to the order-2
Bernstein basis on `[0, 1]` with the two sample rows `[3]` and `[4]`. -/
theorem C1_square_fit_witness :
    (((⟨2, [0, 0, 1, 1], -1⟩ : SBasis ℚ).order +
        ((⟨2, [0, 0, 1, 1], -1⟩ : SBasis ℚ).periodic + 1).toNat ≤
        (⟨2, [0, 0, 1, 1], -1⟩ : SBasis ℚ).knots.length) ∧
     (⟨2, [0, 0, 1, 1], -1⟩ : SBasis ℚ).numFns =
        colsOf (evalMat ⟨2, [0, 0, 1, 1], -1⟩ 0 [0, 1]) ∧
     colsOf (evalMat ⟨2, [0, 0, 1, 1], -1⟩ 0 [0, 1]) = [(0 : ℚ), 1].length ∧
     (rowsToMat 2 2 (evalMat ⟨2, [0, 0, 1, 1], -1⟩ 0 [0, 1])).det ≠ 0) ∧
    ((least_square_fit (.pylist [[3], [4]]) ⟨2, [0, 0, 1, 1], -1⟩ [0, 1]).isOk = true ∧
     rowsToMat 2 2 (evalMat ⟨2, [0, 0, 1, 1], -1⟩ 0 [0, 1]) *
         rowsToMat 2 1
           (curveCp (least_square_fit (.pylist [[3], [4]]) ⟨2, [0, 0, 1, 1], -1⟩ [0, 1])) =
       rowsToMat 2 1 [[3], [4]]) := by
  have hN : evalMat ⟨2, [0, 0, 1, 1], -1⟩ 0 [0, 1] = [[1, 0], [0, 1]] := by
    norm_num [evalMat, evalRow, SBasis.numFns, bsplD, bspl, bsplAux, bspl1, kn,
      List.range_succ]
  have h1 : (⟨2, [0, 0, 1, 1], -1⟩ : SBasis ℚ).numFns =
      colsOf (evalMat ⟨2, [0, 0, 1, 1], -1⟩ 0 [0, 1]) := by
    rw [hN]; rfl
  have h2 : colsOf (evalMat ⟨2, [0, 0, 1, 1], -1⟩ 0 [0, 1]) = [(0 : ℚ), 1].length := by
    rw [hN]; rfl
  have h3 : (rowsToMat 2 2 (evalMat ⟨2, [0, 0, 1, 1], -1⟩ 0 [0, 1])).det ≠ 0 := by
    rw [hN]
    rw [Matrix.det_fin_two]
    norm_num [rowsToMat]
  exact ⟨⟨by decide, h1, h2, h3⟩,
    C1_square_fit_is_exact_interpolation ⟨2, [0, 0, 1, 1], -1⟩ [0, 1]
      (.pylist [[3], [4]]) (by decide) h1 h2 h3⟩

/-! ## Claim C4: no tangent-matrix validation in `cubic_curve` -/

theorem bind_ne_dm {α β : Type} (m : Except Err α) (f : α → Except Err β)
    (h1 : m ≠ .error .dimensionMismatch) (h2 : ∀ a, f a ≠ .error .dimensionMismatch) :
    (m >>= f) ≠ .error .dimensionMismatch := by
  cases m with
  | error e => simpa [Bind.bind, Except.bind] using h1
  | ok a => simpa [Bind.bind, Except.bind] using h2 a

theorem npSolve_ne_dm (N X : List (List ℚ)) :
    npSolve N X ≠ .error .dimensionMismatch := by
  unfold npSolve
  dsimp only
  split
  · simp
  · split <;> simp

theorem mkCurve_ne_dm (b : SBasis ℚ) (cp : List (List ℚ)) (r : Bool) :
    mkCurve b cp r ≠ Except.error Err.dimensionMismatch := by
  unfold mkCurve
  split <;> simp

theorem npAssignFrom_ne_dm (rows : List (List ℚ)) (s : ℕ) (src : List (List ℚ)) :
    npAssignFrom rows s src ≠ .error .dimensionMismatch := by
  unfold npAssignFrom
  dsimp only
  split
  · simp
  · split <;> simp

theorem npResizePy_ne_dm (x : PyMat) (e : ℕ) :
    npResizePy x e ≠ .error .dimensionMismatch := by
  unfold npResizePy
  split <;> simp

theorem resolveT_ne_dm (x : PyMat) (t? : Option (List ℚ)) (sq : ℚ → ℚ) :
    resolveT x t? sq ≠ .error .dimensionMismatch := by
  unfold resolveT
  cases t? <;> [skip; simp [pure, Except.pure]]
  cases x <;> simp [pure, Except.pure]

theorem cubicBasis_ne_dm (bd : Boundary) (t : List ℚ) :
    cubicBasis bd t ≠ .error .dimensionMismatch := by
  unfold cubicBasis
  dsimp only
  split
  · split <;> simp [pure, Except.pure]
  · simp [pure, Except.pure]

theorem derivRows1_ne_dm (bd : Boundary) (bs : SBasis ℚ) (t : List ℚ) :
    derivRows1 bd bs t ≠ .error .dimensionMismatch := by
  unfold derivRows1
  split
  · simp [pure, Except.pure]
  · split <;> simp [pure, Except.pure]

theorem applyDeriv1_ne_dm (bd : Boundary) (bs : SBasis ℚ) (t : List ℚ) (n : ℕ)
    (N : List (List ℚ)) (x : PyMat) (tg : Option (List (List ℚ))) :
    applyDeriv1 bd bs t n N x tg ≠ .error .dimensionMismatch := by
  unfold applyDeriv1
  split
  · apply bind_ne_dm
    · exact derivRows1_ne_dm _ _ _
    · intro de
      apply bind_ne_dm
      · exact npResizePy_ne_dm _ _
      · intro xr
        cases tg with
        | none =>
          dsimp only
          apply bind_ne_dm
          · simp
          · intro x2
            apply bind_ne_dm
            · exact npAssignFrom_ne_dm _ _ _
            · intro N2
              simp [pure, Except.pure]
        | some tgm =>
          dsimp only
          apply bind_ne_dm
          · exact npAssignFrom_ne_dm _ _ _
          · intro x2
            apply bind_ne_dm
            · exact npAssignFrom_ne_dm _ _ _
            · intro N2
              simp [pure, Except.pure]
  · simp [pure, Except.pure]

theorem applyDeriv2_ne_dm (bd : Boundary) (bs : SBasis ℚ) (t : List ℚ)
    (N1 : List (List ℚ)) (x1 : PyMat) :
    applyDeriv2 bd bs t N1 x1 ≠ .error .dimensionMismatch := by
  unfold applyDeriv2
  split
  · apply bind_ne_dm
    · exact npResizePy_ne_dm _ _
    · intro xr
      apply bind_ne_dm
      · exact npAssignFrom_ne_dm _ _ _
      · intro N4
        simp [pure, Except.pure]
  · simp [pure, Except.pure]

theorem cubicSystem_ne_dm (x : PyMat) (b : Boundary) (t? : Option (List ℚ))
    (tg : Option (List (List ℚ))) (sq : ℚ → ℚ) :
    cubicSystem x b t? tg sq ≠ .error .dimensionMismatch := by
  unfold cubicSystem
  apply bind_ne_dm
  · exact resolveT_ne_dm _ _ _
  · intro t
    apply bind_ne_dm
    · exact cubicBasis_ne_dm _ _
    · intro basis
      apply bind_ne_dm
      · exact applyDeriv1_ne_dm _ _ _ _ _ _ _
      · intro r1
        apply bind_ne_dm
        · exact applyDeriv2_ne_dm _ _ _ _ _
        · intro r2
          simp [pure, Except.pure]

/-- C4 (amended): `cubic_curve` performs no input validation of the supplied
tangent/derivative matrix and no code path raises a `DimensionMismatch`
error: for every input whatsoever the result is never that error.  A
row-count mismatch instead surfaces as a numpy broadcasting error during
system assembly — after the interpolation matrix has been built and resized —
except that a single tangent row broadcasts silently to fill all required
rows, in which case a curve is returned (see the counterexample). -/
theorem C4_no_dimension_mismatch (x : PyMat) (b : Boundary) (t? : Option (List ℚ))
    (tg : Option (List (List ℚ))) (sq : ℚ → ℚ) :
    cubic_curve x b t? tg sq ≠ .error .dimensionMismatch := by
  unfold cubic_curve
  apply bind_ne_dm
  · exact cubicSystem_ne_dm _ _ _ _ _
  · intro s
    apply bind_ne_dm
    · exact npSolve_ne_dm _ _
    · intro cp
      exact mkCurve_ne_dm _ _ _

/-- The assembled system of the C4 counterexample call: TANGENT with two
points and a single tangent row, which numpy broadcasting duplicates into
both derivative rows. -/
theorem c4_counterexample_system :
    cubicSystem (.ndarray [[0, 0], [1, 0]]) .tangent (some [0, 1]) (some [[1, 1]]) id =
      .ok (⟨4, [0, 0, 0, 0, 1, 1, 1, 1], -1⟩,
           [[1, 0, 0, 0], [0, 0, 0, 1], [-3, 3, 0, 0], [0, 0, -3, 3]],
           [[0, 0], [1, 0], [1, 1], [1, 1]]) := by
  have hN : evalMat ⟨4, [0, 0, 0, 0, 1, 1, 1, 1], -1⟩ 0 [0, 1] =
      [[1, 0, 0, 0], [0, 0, 0, 1]] := by
    norm_num [evalMat, evalRow, SBasis.numFns, bsplD, bspl, bsplAux, bspl1, kn,
      List.range_succ]
  have hD : evalMat ⟨4, [0, 0, 0, 0, 1, 1, 1, 1], -1⟩ 1 [0, 1] =
      [[-3, 3, 0, 0], [0, 0, -3, 3]] := by
    norm_num [evalMat, evalRow, SBasis.numFns, bsplD, bspl, bsplAux, bspl1, kn,
      List.range_succ]
  simp [cubicSystem, resolveT, cubicBasis, cubicKnot, applyDeriv1, applyDeriv2,
    derivRows1, hN, hD, npResizeRows, npAssignFrom, npResizePy, colsOf,
    List.range_succ]
  rfl

/-- Determinant of the coefficient matrix of the C4 counterexample system. -/
theorem c4_counterexample_det :
    (rowsToMat 4 4 [[(1 : ℚ), 0, 0, 0], [0, 0, 0, 1], [-3, 3, 0, 0], [0, 0, -3, 3]]).det
      = -9 := by
  simp [Matrix.det_succ_row_zero, Fin.sum_univ_succ, rowsToMat]
  norm_num

/-- C4 (counterexample): the claim states that a TANGENT call whose tangents
matrix does not have exactly two rows fails with `DimensionMismatch` and
returns no curve.  With a single tangent row the assignment
`x[n:,:] = tangents` broadcasts the row across both constraint rows, the
square system is solved, and a curve is returned. -/
theorem C4_counterexample_one_tangent_row_returns_curve :
    (cubic_curve (.ndarray [[0, 0], [1, 0]]) .tangent (some [0, 1]) (some [[1, 1]])
      id).isOk = true := by
  unfold cubic_curve
  rw [c4_counterexample_system]
  show (npSolve [[1, 0, 0, 0], [0, 0, 0, 1], [-3, 3, 0, 0], [0, 0, -3, 3]]
      [[0, 0], [1, 0], [1, 1], [1, 1]] >>= fun cp =>
        mkCurve ⟨4, [0, 0, 0, 0, 1, 1, 1, 1], -1⟩ cp false).isOk = true
  unfold npSolve
  norm_num [colsOf]
  show ((if (rowsToMat 4 4
        [[(1 : ℚ), 0, 0, 0], [0, 0, 0, 1], [-3, 3, 0, 0], [0, 0, -3, 3]]).det = 0
      then Except.error Err.singularSystem
      else Except.ok (matToRows
        (qinv (rowsToMat 4 4
            [[(1 : ℚ), 0, 0, 0], [0, 0, 0, 1], [-3, 3, 0, 0], [0, 0, -3, 3]]) *
         rowsToMat 4 2 [[0, 0], [1, 0], [1, 1], [1, 1]]))) >>= fun cp =>
        mkCurve ⟨4, [0, 0, 0, 0, 1, 1, 1, 1], -1⟩ cp false).isOk = true
  rw [if_neg (by rw [c4_counterexample_det]; norm_num)]
  show (mkCurve (⟨4, [0, 0, 0, 0, 1, 1, 1, 1], -1⟩ : SBasis ℚ)
      (matToRows
        (qinv (rowsToMat 4 4
            [[(1 : ℚ), 0, 0, 0], [0, 0, 0, 1], [-3, 3, 0, 0], [0, 0, -3, 3]]) *
         rowsToMat 4 2 [[0, 0], [1, 0], [1, 1], [1, 1]])) false).isOk = true
  unfold mkCurve
  rw [if_pos ⟨by simp [matToRows, SBasis.numFns], by decide⟩]
  rfl

/-! ## Claim C10: plain-list inputs to `cubic_curve` -/

/-- C10 (counterexample): the claim attributes the HERMITE failure for
plain-list inputs to a type error from the constraint-row append reading
`x.shape`.  In fact the HERMITE branch fails earlier, with `NameError` from
the undefined name `getBasis`, and it does so for ndarray inputs just the
same — the failure is neither a type error nor caused by the type of `x`. -/
theorem C10_counterexample_hermite_fails_with_nameError :
    cubic_curve (.pylist [[0], [1]]) .hermite (some [0, 1]) (some [[1], [1]]) id =
      .error .nameError ∧
    cubic_curve (.ndarray [[0], [1]]) .hermite (some [0, 1]) (some [[1], [1]]) id =
      .error .nameError ∧
    Err.nameError ≠ Err.typeError ∧ Err.nameError ≠ Err.attributeError :=
  ⟨rfl, rfl, by decide, by decide⟩

/-- C10 (amended): `cubic_curve` requires its point matrix to support
2-D slicing and `.shape`.  For every plain-list input it fails with
`TypeError` whenever `t` is omitted (the default parametrization slices
`x[:-1,:]`), and with `AttributeError` (from reading `x.shape` in the
constraint-row append) for the TANGENT, TANGENTNATURAL and NATURAL regimes;
for HERMITE the call fails with `NameError` regardless of the input's type
(see the counterexample).  By contrast, plain lists are harmless elsewhere:
with `t` supplied the FREE regime, `interpolate` and `least_square_fit`
treat a plain list exactly like an ndarray (`np.matrix(x)` wraps it, and
`np.linalg.solve` accepts lists). -/
theorem C10_plain_list_inputs (rows : List (List ℚ)) (t t2 : List ℚ)
    (tg : Option (List (List ℚ))) (b : Boundary) (sq : ℚ → ℚ) (basis : SBasis ℚ) :
    cubic_curve (.pylist rows) b none tg sq = .error .typeError ∧
    cubic_curve (.pylist rows) .tangent (some t) tg sq = .error .attributeError ∧
    cubic_curve (.pylist rows) .tangentnatural (some t) tg sq = .error .attributeError ∧
    cubic_curve (.pylist rows) .natural (some t) tg sq = .error .attributeError ∧
    cubic_curve (.pylist rows) .free (some t) tg sq =
      cubic_curve (.ndarray rows) .free (some t) tg sq ∧
    interpolate (.pylist rows) basis (some t2) =
      interpolate (.ndarray rows) basis (some t2) ∧
    least_square_fit (.pylist rows) basis t2 =
      least_square_fit (.ndarray rows) basis t2 :=
  ⟨rfl, rfl, rfl, rfl, rfl, rfl, rfl⟩

/-! ## Claim C9: the `polygon` knot vector -/

/-- Consecutive knot differences along the running cumulative-distance tail:
the distances between consecutive points followed by the duplicated final
knot (spacing `0`). -/
theorem diffs_cumFrom (ps : List (List ℝ)) (prev : List ℝ) (acc : ℝ) :
    diffs (acc :: cumFrom acc prev ps) = pairDists (prev :: ps) ++ [0] := by
  induction ps generalizing prev acc with
  | nil => simp [cumFrom, diffs, pairDists]
  | cons q qs ih =>
    simp [cumFrom, diffs, pairDists] at ih ⊢
    simpa using ih q (acc + distR prev q)

/-- The spacings of the `polygon` knot vector: a leading `0` (first knot
repeated), the distances between consecutive input points, and a trailing
`0` (last knot repeated). -/
theorem diffs_polygonKnot (p : List ℝ) (ps : List (List ℝ)) :
    diffs (polygonKnot (p :: ps)) = 0 :: (pairDists (p :: ps) ++ [0]) := by
  show diffs (0 :: 0 :: cumFrom 0 p ps) = _
  rw [show diffs (0 :: 0 :: cumFrom 0 p ps)
      = (0 - 0) :: diffs (0 :: cumFrom 0 p ps) from rfl, diffs_cumFrom]
  norm_num

/-- Distance evaluations for the C9 counterexample. -/
theorem c9_dist_inputs : distR [1, 0] [-1, 0] = 2 := by
  simp [distR]
  rw [show ((-1 : ℝ) - 1) ^ 2 = 2 ^ 2 from by norm_num]
  exact Real.sqrt_sq (by norm_num)

/-- Distance between the accumulated points of the C9 counterexample. -/
theorem c9_dist_accum : distR [1, 0] [0, 0] = 1 := by
  simp [distR]

/-- Accumulation of the C9 counterexample inputs. -/
theorem c9_accum : accumRel [[1, 0], [-1, 0]] = [[1, 0], [0, 0]] := by
  simp [accumRel, accumGo]

/-- C9 (counterexample): with `relative=True` and inputs `(1,0), (-1,0)` the
knot vector is computed from the raw inputs before accumulation, so its
interior spacing is `2` (the distance between the raw inputs) while the
resulting curve's consecutive points `(1,0), (0,0)` lie at distance `1`:
the claim's spacing property fails for the resulting curve. -/
theorem C9_counterexample_relative :
    diffs ((polygon [[1, 0], [-1, 0]] true).basis.knots) ≠
      0 :: (pairDists ((polygon [[1, 0], [-1, 0]] true).cp) ++ [0]) := by
  have hk : (polygon [[1, 0], [-1, 0]] true).basis.knots
      = [0, 0, distR [1, 0] [-1, 0], distR [1, 0] [-1, 0]] := by
    simp [polygon, polygonKnot, cumFrom]
  have hl : diffs ((polygon [[1, 0], [-1, 0]] true).basis.knots) = [0, 2, 0] := by
    rw [hk, c9_dist_inputs]
    simp [diffs]
  have hr : pairDists ((polygon [[1, 0], [-1, 0]] true).cp) = [1] := by
    rw [show (polygon [[1, 0], [-1, 0]] true).cp = accumRel [[1, 0], [-1, 0]] from rfl,
      c9_accum]
    simp [pairDists, c9_dist_accum]
  rw [hl, hr]
  intro h
  simp at h

/-- C9 (amended): for every nonempty input point sequence, `polygon` builds
an order-2 basis whose knot spacings are the Euclidean distances between
consecutive *input* points (with the first and last knot each repeated
once, the `0` spacings below); the control points are exactly the input
points, accumulated first when `relative=True`.  For `relative=False` the
input points are the curve's points, so the claim holds; with
`relative=True` the knots are computed before the accumulation, so the
spacings refer to the raw inputs, not to the resulting curve's points (see
the counterexample). -/
theorem C9_polygon_knot_spacings (p : List ℝ) (ps : List (List ℝ)) :
    diffs ((polygon (p :: ps) false).basis.knots) = 0 :: (pairDists (p :: ps) ++ [0]) ∧
    (polygon (p :: ps) false).basis.order = 2 ∧
    (polygon (p :: ps) false).cp = p :: ps ∧
    (polygon (p :: ps) true).cp = accumRel (p :: ps) ∧
    diffs ((polygon (p :: ps) true).basis.knots) = 0 :: (pairDists (p :: ps) ++ [0]) :=
  ⟨diffs_polygonKnot p ps, rfl, rfl, rfl, diffs_polygonKnot p ps⟩

/-! ## Claims C3, C5, C8: the rational conic constructors -/

open Real in
/-- Explicit form of the quadratic-rational circle: validating the radius and
the tag, scaling the geometric (homogeneous) columns by `r`, and building the
order-3 basis that is periodic with continuity 0 on the knot vector with
doubled interior knots every quarter-turn. -/
theorem circle_p2C0_eq (r : ℝ) (hr : 0 < r) :
    circle r "p2C0" =
      .ok ⟨⟨3, [-(π / 2), 0, 0, π / 2, π / 2, π, π, 3 * (π / 2), 3 * (π / 2),
                2 * π, 2 * π, 5 * (π / 2)], 0⟩,
           [[r, 0, 1],
            [r * (1 / Real.sqrt 2), r * (1 / Real.sqrt 2), 1 / Real.sqrt 2],
            [0, r, 1],
            [-(r * (1 / Real.sqrt 2)), r * (1 / Real.sqrt 2), 1 / Real.sqrt 2],
            [-r, 0, 1],
            [-(r * (1 / Real.sqrt 2)), -(r * (1 / Real.sqrt 2)), 1 / Real.sqrt 2],
            [0, -r, 1],
            [r * (1 / Real.sqrt 2), -(r * (1 / Real.sqrt 2)), 1 / Real.sqrt 2]],
           true⟩ := by
  unfold circle
  rw [if_neg (not_le.mpr hr)]
  rw [if_pos (by norm_num)]
  unfold mkCurve
  rw [if_pos (by constructor <;> simp [scaleGeo, SBasis.numFns])]
  simp [scaleGeo]
  norm_num
  refine ⟨by ring, by ring, by ring, by ring⟩

open Real in
/-- Explicit form of the quartic-rational circle: 12 control points built
from `w = 2√2/3`, `a = 1/(2√2)`, `b = (4√2-1)/6` on a C¹-periodic order-5
basis. -/
theorem circle_p4C1_eq (r : ℝ) (hr : 0 < r) :
    circle r "p4C1" =
      .ok ⟨⟨5, [-(π / 2), -(π / 2), 0, 0, 0, π / 2, π / 2, π / 2, π, π, π,
                3 * (π / 2), 3 * (π / 2), 3 * (π / 2), 2 * π, 2 * π, 2 * π,
                5 * (π / 2), 5 * (π / 2)], 1⟩,
           [[r, -(r * (1 / 2 / Real.sqrt 2)), 1],
            [r, r * (1 / 2 / Real.sqrt 2), 1],
            [r * (1 / 6 * (4 * Real.sqrt 2 - 1)), r * (1 / 6 * (4 * Real.sqrt 2 - 1)),
             2 * Real.sqrt 2 / 3],
            [r * (1 / 2 / Real.sqrt 2), r, 1],
            [-(r * (1 / 2 / Real.sqrt 2)), r, 1],
            [-(r * (1 / 6 * (4 * Real.sqrt 2 - 1))), r * (1 / 6 * (4 * Real.sqrt 2 - 1)),
             2 * Real.sqrt 2 / 3],
            [-r, r * (1 / 2 / Real.sqrt 2), 1],
            [-r, -(r * (1 / 2 / Real.sqrt 2)), 1],
            [-(r * (1 / 6 * (4 * Real.sqrt 2 - 1))), -(r * (1 / 6 * (4 * Real.sqrt 2 - 1))),
             2 * Real.sqrt 2 / 3],
            [-(r * (1 / 2 / Real.sqrt 2)), -r, 1],
            [r * (1 / 2 / Real.sqrt 2), -r, 1],
            [r * (1 / 6 * (4 * Real.sqrt 2 - 1)), -(r * (1 / 6 * (4 * Real.sqrt 2 - 1))),
             2 * Real.sqrt 2 / 3]],
           true⟩ := by
  unfold circle
  rw [if_neg (not_le.mpr hr)]
  rw [if_neg (by decide)]
  rw [if_pos (by norm_num)]
  unfold mkCurve
  rw [if_pos (by constructor <;> simp [scaleGeo, SBasis.numFns])]
  simp [scaleGeo]
  norm_num
  repeat' apply And.intro
  all_goals ring

/-- The alternative spellings of the two parametrization tags are synonyms. -/
theorem circle_tag_aliases (r : ℝ) :
    circle r "C0p2" = circle r "p2C0" ∧ circle r "C1p4" = circle r "p4C1" := by
  constructor <;> rfl

open Real in
/-- Explicit success path of `circle_segment` for a positive angle below a
full turn: the knot vector `[0,0,0,1,1,...,n,n,n]` rescaled to `[0, theta]`
and the `2·spans+1` control points at angle steps `dt = theta/spans/2` with
weights alternating between `1` and `cos dt`. -/
theorem circle_segment_pos_eq (theta r : ℝ) (hr : 0 < r) (h1 : 0 < theta)
    (h2 : theta < 2 * π) :
    circle_segment theta r =
      mkCurve ⟨3, (([0] ++ ((List.range ((⌈theta / (2 * π / 3)⌉ + 1)).toNat).map
            fun i => [(i : ℤ), (i : ℤ)]).flatten ++ [⌈theta / (2 * π / 3)⌉]).map
            fun v => (v : ℝ) / ((⌈theta / (2 * π / 3)⌉ : ℤ) : ℝ) * theta), -1⟩
        ((List.range (((⌈theta / (2 * π / 3)⌉ - 1) * 2 + 3)).toNat).map fun (i : ℕ) =>
          [r * Real.cos (i * (theta / ((⌈theta / (2 * π / 3)⌉ : ℤ) : ℝ) / 2)),
           r * Real.sin (i * (theta / ((⌈theta / (2 * π / 3)⌉ : ℤ) : ℝ) / 2)),
           1 - (Nat.cast (i % 2) : ℝ) *
             (1 - Real.cos (theta / ((⌈theta / (2 * π / 3)⌉ : ℤ) : ℝ) / 2))])
        true := by
  have hkpos : 0 < ⌈theta / (2 * π / 3)⌉ := by
    rw [Int.ceil_pos]
    positivity
  unfold circle_segment
  rw [if_neg (by rw [abs_of_pos h1]; exact not_lt.mpr (le_of_lt h2))]
  rw [if_neg (not_le.mpr hr)]
  rw [if_neg (ne_of_lt h2)]
  rw [if_neg (by omega)]

/-- The quadratic circle weight is nonzero. -/
theorem circle_weight2_ne : (1 : ℝ) / Real.sqrt 2 ≠ 0 := by
  have : (0 : ℝ) < Real.sqrt 2 := Real.sqrt_pos.mpr (by norm_num)
  positivity

/-- The quartic circle weight is nonzero. -/
theorem circle_weight4_ne : (2 : ℝ) * Real.sqrt 2 / 3 ≠ 0 := by
  have : (0 : ℝ) < Real.sqrt 2 := Real.sqrt_pos.mpr (by norm_num)
  positivity

open Real in
/-- The per-half-span angle of a positive arc is in `(0, π/3]`, so its cosine
(every other control-point weight) is positive. -/
theorem seg_cos_dt_pos (theta : ℝ) (h1 : 0 < theta) :
    0 < Real.cos (theta / ((⌈theta / (2 * π / 3)⌉ : ℤ) : ℝ) / 2) := by
  have hpi := Real.pi_pos
  have hkpos : 0 < ⌈theta / (2 * π / 3)⌉ := Int.ceil_pos.mpr (by positivity)
  have hk1 : (1 : ℝ) ≤ ((⌈theta / (2 * π / 3)⌉ : ℤ) : ℝ) := by exact_mod_cast hkpos
  have hkR : (0 : ℝ) < ((⌈theta / (2 * π / 3)⌉ : ℤ) : ℝ) := by linarith
  have hle : theta / (2 * π / 3) ≤ ((⌈theta / (2 * π / 3)⌉ : ℤ) : ℝ) := Int.le_ceil _
  have h23 : (0 : ℝ) < 2 * π / 3 := by positivity
  have hth : theta ≤ ((⌈theta / (2 * π / 3)⌉ : ℤ) : ℝ) * (2 * π / 3) :=
    (div_le_iff₀ h23).mp hle
  have hdiv : theta / ((⌈theta / (2 * π / 3)⌉ : ℤ) : ℝ) ≤ 2 * π / 3 := by
    rw [div_le_iff₀ hkR]
    linarith [hth]
  have hdt_le : theta / ((⌈theta / (2 * π / 3)⌉ : ℤ) : ℝ) / 2 ≤ π / 3 := by
    linarith
  have hdt_pos : 0 < theta / ((⌈theta / (2 * π / 3)⌉ : ℤ) : ℝ) / 2 := by positivity
  exact Real.cos_pos_of_mem_Ioo ⟨by linarith, by linarith⟩

open Real in
/-- The point of the circle of radius `r` about the origin at polar angle
`phi` — the claim-side notion of a Cartesian position on the circle. -/
noncomputable def circlePoint (r phi : ℝ) : ℝ × ℝ :=
  (r * Real.cos phi, r * Real.sin phi)

/-- The tangent line to the circle of radius `r` at polar angle `phi`: the
points whose scalar product with the unit radius direction equals `r`. -/
def onTangent (r phi x y : ℝ) : Prop := x * Real.cos phi + y * Real.sin phi = r

/-- Claim C3's storage convention, stated against an independently given
Cartesian control polygon `cart` with weights `wts`: the curve is flagged
rational and each stored control point is exactly the Cartesian coordinates
multiplied by the (nonzero) weight, with the weight in the extra third
column.  A curve that stored the Cartesian coordinates without the
pre-multiplication would violate the third conjunct. -/
def homogeneousForm (c : SCurve ℝ) (cart : List (ℝ × ℝ)) (wts : List ℝ) : Prop :=
  c.rational = true ∧ (∀ w ∈ wts, w ≠ 0) ∧
    c.cp = List.zipWith (fun p w => [p.1 * w, p.2 * w, w]) cart wts

/-- The Cartesian control polygon of the quadratic rational circle of radius
`r`: the four circle points at the quarter-turn angles alternating with the
four corner points where consecutive quarter-turn tangents intersect. -/
noncomputable def cartCircle2 (r : ℝ) : List (ℝ × ℝ) :=
  [(r, 0), (r, r), (0, r), (-r, r), (-r, 0), (-r, -r), (0, -r), (r, -r)]

/-- The weights of the quadratic rational circle: `1` on the circle points,
`1/√2` on the tangent-intersection points. -/
noncomputable def wtsCircle2 : List ℝ :=
  [1, 1 / Real.sqrt 2, 1, 1 / Real.sqrt 2, 1, 1 / Real.sqrt 2,
   1, 1 / Real.sqrt 2]

/-- The Cartesian control polygon of the quartic rational circle of radius
`r`, with `a = 1/(2√2)` and diagonal coordinate `1 - √2/8`: two weight-1
points on each axis tangent and one weighted point on each quadrant
diagonal. -/
noncomputable def cartCircle4 (r : ℝ) : List (ℝ × ℝ) :=
  [(r, -(1 / 2 / Real.sqrt 2 * r)), (r, 1 / 2 / Real.sqrt 2 * r),
   ((1 - Real.sqrt 2 / 8) * r, (1 - Real.sqrt 2 / 8) * r),
   (1 / 2 / Real.sqrt 2 * r, r), (-(1 / 2 / Real.sqrt 2 * r), r),
   (-((1 - Real.sqrt 2 / 8) * r), (1 - Real.sqrt 2 / 8) * r),
   (-r, 1 / 2 / Real.sqrt 2 * r), (-r, -(1 / 2 / Real.sqrt 2 * r)),
   (-((1 - Real.sqrt 2 / 8) * r), -((1 - Real.sqrt 2 / 8) * r)),
   (-(1 / 2 / Real.sqrt 2 * r), -r), (1 / 2 / Real.sqrt 2 * r, -r),
   ((1 - Real.sqrt 2 / 8) * r, -((1 - Real.sqrt 2 / 8) * r))]

/-- The weights of the quartic rational circle: `1` on the axis-tangent
points, `2√2/3` on the diagonal points. -/
noncomputable def wtsCircle4 : List ℝ :=
  [1, 1, 2 * Real.sqrt 2 / 3, 1, 1, 2 * Real.sqrt 2 / 3,
   1, 1, 2 * Real.sqrt 2 / 3, 1, 1, 2 * Real.sqrt 2 / 3]

/-- The `i`-th Cartesian control point of a circle segment with half-span
angle `dt`: even indices give the circle point at angle `i·dt`, odd indices
the point at distance `r / cos dt` along the mid-span direction (the
intersection of the two neighbouring tangents). -/
noncomputable def segPoint (r dt : ℝ) (i : ℕ) : ℝ × ℝ :=
  if i % 2 = 0 then (r * Real.cos (i * dt), r * Real.sin (i * dt))
  else (r / Real.cos dt * Real.cos (i * dt), r / Real.cos dt * Real.sin (i * dt))

/-- The `i`-th weight of a circle segment: `1` on even indices, `cos dt` on
odd indices. -/
noncomputable def segWt (dt : ℝ) (i : ℕ) : ℝ :=
  if i % 2 = 0 then 1 else Real.cos dt

/-- The Cartesian control polygon of a circle segment with `n` control
points. -/
noncomputable def cartSegment (r dt : ℝ) (n : ℕ) : List (ℝ × ℝ) :=
  (List.range n).map (segPoint r dt)

/-- The weight list of a circle segment with `n` control points. -/
noncomputable def wtsSegment (dt : ℝ) (n : ℕ) : List ℝ :=
  (List.range n).map (segWt dt)

/-- Geometric pinning of a quadratic-conic Cartesian polygon with angle step
`dtv`: the even-indexed points are exactly the circle points at the sample
angles `i·dtv`, and each odd-indexed point lies on both neighbouring tangent
lines (the tangents at the two adjacent sample angles), i.e. it is their
intersection. -/
def pinnedPolygon (r dtv : ℝ) (cart : List (ℝ × ℝ)) : Prop :=
  ∀ i, i < cart.length →
    if i % 2 = 0 then cart.getD i (0, 0) = circlePoint r (i * dtv)
    else
      onTangent r (((i - 1 : ℕ) : ℝ) * dtv)
        (cart.getD i (0, 0)).1 (cart.getD i (0, 0)).2 ∧
      onTangent r (((i + 1 : ℕ) : ℝ) * dtv)
        (cart.getD i (0, 0)).1 (cart.getD i (0, 0)).2

open Real in
/-- Geometric pinning of the quartic circle polygon: each weight-1 point
(the indices `i` with `i % 3 ≠ 2`) lies on the tangent line at its
quadrant's axis angle `(i/3)·(π/2)`. -/
def pinnedQuartic (r : ℝ) (cart : List (ℝ × ℝ)) : Prop :=
  ∀ i, i < cart.length → i % 3 ≠ 2 →
    onTangent r (((i / 3 : ℕ) : ℝ) * (π / 2))
      (cart.getD i (0, 0)).1 (cart.getD i (0, 0)).2

/-- `zipWith` of two maps over the same list is a single map. -/
theorem zipWith_map_same {α β γ δ : Type} (f : β → γ → δ) (g : α → β) (h : α → γ) :
    ∀ l : List α, List.zipWith f (l.map g) (l.map h) = l.map fun a => f (g a) (h a)
  | [] => rfl
  | a :: l => by simp [zipWith_map_same f g h l]

/-- Pointwise equal functions give equal maps. -/
theorem map_eq_map_of_eq {α β : Type} (f g : α → β) :
    ∀ l : List α, (∀ a ∈ l, f a = g a) → l.map f = l.map g
  | [], _ => rfl
  | a :: l, h => by
    simp only [List.map_cons, List.cons.injEq]
    exact ⟨h a (by simp), map_eq_map_of_eq f g l fun b hb => h b (by simp [hb])⟩

/-- `getD` on a map over `List.range` evaluates the generator. -/
theorem getD_map_range {α : Type} (f : ℕ → α) (d : α) (n i : ℕ) (h : i < n) :
    ((List.range n).map f).getD i d = f i := by
  rw [List.getD_eq_getElem _ _ (by simpa using h)]
  rw [List.getElem_map, List.getElem_range]

/-- All quadratic-circle weights are nonzero. -/
theorem wts2_ne : ∀ w ∈ wtsCircle2, w ≠ 0 := by
  intro w hw
  simp only [wtsCircle2, List.mem_cons, List.not_mem_nil, or_false] at hw
  rcases hw with rfl | rfl | rfl | rfl | rfl | rfl | rfl | rfl
  all_goals first | exact one_ne_zero | exact circle_weight2_ne

/-- All quartic-circle weights are nonzero. -/
theorem wts4_ne : ∀ w ∈ wtsCircle4, w ≠ 0 := by
  intro w hw
  simp only [wtsCircle4, List.mem_cons, List.not_mem_nil, or_false] at hw
  rcases hw with rfl | rfl | rfl | rfl | rfl | rfl | rfl | rfl | rfl | rfl | rfl | rfl
  all_goals first | exact one_ne_zero | exact circle_weight4_ne

/-- All circle-segment weights are nonzero when `cos dt ≠ 0`. -/
theorem wtsSegment_ne (dt : ℝ) (hc : Real.cos dt ≠ 0) (n : ℕ) :
    ∀ w ∈ wtsSegment dt n, w ≠ 0 := by
  intro w hw
  simp only [wtsSegment, segWt, List.mem_map, List.mem_range] at hw
  obtain ⟨i, _, hi⟩ := hw
  rcases Nat.mod_two_eq_zero_or_one i with h | h
  · rw [if_pos h] at hi
    exact hi ▸ one_ne_zero
  · rw [if_neg (by omega)] at hi
    exact hi ▸ hc

open Real in
/-- The stored control points of the quadratic circle are the Cartesian
polygon multiplied pointwise by the weights. -/
theorem circle2_rows (r : ℝ) :
    [[r, 0, 1],
     [r * (1 / Real.sqrt 2), r * (1 / Real.sqrt 2), 1 / Real.sqrt 2],
     [0, r, 1],
     [-(r * (1 / Real.sqrt 2)), r * (1 / Real.sqrt 2), 1 / Real.sqrt 2],
     [-r, 0, 1],
     [-(r * (1 / Real.sqrt 2)), -(r * (1 / Real.sqrt 2)), 1 / Real.sqrt 2],
     [0, -r, 1],
     [r * (1 / Real.sqrt 2), -(r * (1 / Real.sqrt 2)), 1 / Real.sqrt 2]] =
      List.zipWith (fun (p : ℝ × ℝ) (w : ℝ) => [p.1 * w, p.2 * w, w])
        (cartCircle2 r) wtsCircle2 := by
  simp [cartCircle2, wtsCircle2]

open Real in
/-- The stored control points of the quartic circle are the Cartesian
polygon multiplied pointwise by the weights; on the diagonal points this is
the identity `(1 - √2/8)·(2√2/3) = (4√2 - 1)/6`. -/
theorem circle4_rows (r : ℝ) :
    [[r, -(r * (1 / 2 / Real.sqrt 2)), 1],
     [r, r * (1 / 2 / Real.sqrt 2), 1],
     [r * (1 / 6 * (4 * Real.sqrt 2 - 1)), r * (1 / 6 * (4 * Real.sqrt 2 - 1)),
      2 * Real.sqrt 2 / 3],
     [r * (1 / 2 / Real.sqrt 2), r, 1],
     [-(r * (1 / 2 / Real.sqrt 2)), r, 1],
     [-(r * (1 / 6 * (4 * Real.sqrt 2 - 1))), r * (1 / 6 * (4 * Real.sqrt 2 - 1)),
      2 * Real.sqrt 2 / 3],
     [-r, r * (1 / 2 / Real.sqrt 2), 1],
     [-r, -(r * (1 / 2 / Real.sqrt 2)), 1],
     [-(r * (1 / 6 * (4 * Real.sqrt 2 - 1))), -(r * (1 / 6 * (4 * Real.sqrt 2 - 1))),
      2 * Real.sqrt 2 / 3],
     [-(r * (1 / 2 / Real.sqrt 2)), -r, 1],
     [r * (1 / 2 / Real.sqrt 2), -r, 1],
     [r * (1 / 6 * (4 * Real.sqrt 2 - 1)), -(r * (1 / 6 * (4 * Real.sqrt 2 - 1))),
      2 * Real.sqrt 2 / 3]] =
      List.zipWith (fun (p : ℝ × ℝ) (w : ℝ) => [p.1 * w, p.2 * w, w])
        (cartCircle4 r) wtsCircle4 := by
  have h2 : Real.sqrt 2 * Real.sqrt 2 = 2 := Real.mul_self_sqrt (by norm_num)
  simp only [cartCircle4, wtsCircle4, List.zipWith, List.cons.injEq, and_true]
  repeat' apply And.intro
  all_goals
    first
      | ring1
      | linear_combination (r / 12) * h2
      | linear_combination (-(r / 12)) * h2

open Real in
/-- The quadratic-circle polygon is pinned with angle step `π/4`: circle
points at the even sample angles, tangent intersections at the odd ones. -/
theorem cart2_pinned (r : ℝ) : pinnedPolygon r (π / 4) (cartCircle2 r) := by
  have hc2 : Real.cos (2 * (π / 4)) = 0 := by
    rw [show (2 : ℝ) * (π / 4) = π / 2 by ring, Real.cos_pi_div_two]
  have hs2 : Real.sin (2 * (π / 4)) = 1 := by
    rw [show (2 : ℝ) * (π / 4) = π / 2 by ring, Real.sin_pi_div_two]
  have hc4 : Real.cos (4 * (π / 4)) = -1 := by
    rw [show (4 : ℝ) * (π / 4) = π by ring, Real.cos_pi]
  have hs4 : Real.sin (4 * (π / 4)) = 0 := by
    rw [show (4 : ℝ) * (π / 4) = π by ring, Real.sin_pi]
  have hc6 : Real.cos (6 * (π / 4)) = 0 := by
    rw [show (6 : ℝ) * (π / 4) = π + π / 2 by ring, Real.cos_add, Real.cos_pi,
      Real.sin_pi, Real.cos_pi_div_two, Real.sin_pi_div_two]
    ring
  have hs6 : Real.sin (6 * (π / 4)) = -1 := by
    rw [show (6 : ℝ) * (π / 4) = π + π / 2 by ring, Real.sin_add, Real.cos_pi,
      Real.sin_pi, Real.cos_pi_div_two, Real.sin_pi_div_two]
    ring
  have hc8 : Real.cos (8 * (π / 4)) = 1 := by
    rw [show (8 : ℝ) * (π / 4) = 2 * π by ring, Real.cos_two_pi]
  have hs8 : Real.sin (8 * (π / 4)) = 0 := by
    rw [show (8 : ℝ) * (π / 4) = 2 * π by ring, Real.sin_two_pi]
  intro i h
  simp only [cartCircle2, List.length_cons, List.length_nil] at h
  interval_cases i <;>
    simp [cartCircle2, circlePoint, onTangent, List.getD, hc2, hs2, hc4, hs4,
      hc6, hs6, hc8, hs8]

open Real in
/-- The quartic-circle polygon's weight-1 points are pinned to the axis
tangent lines. -/
theorem cart4_pinned (r : ℝ) : pinnedQuartic r (cartCircle4 r) := by
  have hc22 : Real.cos (2 * (π / 2)) = -1 := by
    rw [show (2 : ℝ) * (π / 2) = π by ring, Real.cos_pi]
  have hs22 : Real.sin (2 * (π / 2)) = 0 := by
    rw [show (2 : ℝ) * (π / 2) = π by ring, Real.sin_pi]
  have hc3 : Real.cos (3 * (π / 2)) = 0 := by
    rw [show (3 : ℝ) * (π / 2) = π + π / 2 by ring, Real.cos_add, Real.cos_pi,
      Real.sin_pi, Real.cos_pi_div_two, Real.sin_pi_div_two]
    ring
  have hs3 : Real.sin (3 * (π / 2)) = -1 := by
    rw [show (3 : ℝ) * (π / 2) = π + π / 2 by ring, Real.sin_add, Real.cos_pi,
      Real.sin_pi, Real.cos_pi_div_two, Real.sin_pi_div_two]
    ring
  intro i h hne
  simp only [cartCircle4, List.length_cons, List.length_nil] at h
  interval_cases i <;>
    first
      | exact absurd rfl hne
      | simp [cartCircle4, onTangent, List.getD, hc22, hs22, hc3, hs3]

open Real in
/-- The segment polygon is pinned with angle step `dt` whenever
`cos dt ≠ 0`: even points are the circle points at the sample angles, odd
points lie on both neighbouring tangent lines. -/
theorem segment_pinned (r dt : ℝ) (hc : Real.cos dt ≠ 0) (n : ℕ) :
    pinnedPolygon r dt (cartSegment r dt n) := by
  intro i h
  rw [cartSegment, List.length_map, List.length_range] at h
  have hg : (cartSegment r dt n).getD i (0, 0) = segPoint r dt i :=
    getD_map_range _ _ _ _ h
  rcases Nat.mod_two_eq_zero_or_one i with he | ho
  · rw [if_pos he, hg]
    simp [segPoint, he, circlePoint]
  · rw [if_neg (by omega), hg]
    have hi1 : 1 ≤ i := by omega
    have h0 : ¬ i % 2 = 0 := by omega
    constructor
    · simp only [segPoint, if_neg h0, onTangent]
      rw [Nat.cast_sub hi1, Nat.cast_one]
      have hcs := Real.cos_sub ((i : ℝ) * dt) (((i : ℝ) - 1) * dt)
      rw [show (i : ℝ) * dt - ((i : ℝ) - 1) * dt = dt by ring] at hcs
      field_simp
      first
        | linear_combination (-(2 * r)) * hcs
        | linear_combination (2 * r) * hcs
        | linear_combination r * hcs
        | linear_combination (-r) * hcs
    · simp only [segPoint, if_neg h0, onTangent]
      rw [Nat.cast_add, Nat.cast_one]
      have hcs := Real.cos_sub ((i : ℝ) * dt) (((i : ℝ) + 1) * dt)
      rw [show (i : ℝ) * dt - ((i : ℝ) + 1) * dt = -dt by ring, Real.cos_neg] at hcs
      field_simp
      first
        | linear_combination (-(2 * r)) * hcs
        | linear_combination (2 * r) * hcs
        | linear_combination r * hcs
        | linear_combination (-r) * hcs

open Real in
/-- The stored control points of `circle_segment` are the Cartesian polygon
multiplied pointwise by the weights. -/
theorem segment_rows (r dt : ℝ) (hc : Real.cos dt ≠ 0) (n : ℕ) :
    (List.range n).map (fun (i : ℕ) =>
      [r * Real.cos (i * dt), r * Real.sin (i * dt),
       1 - (Nat.cast (i % 2) : ℝ) * (1 - Real.cos dt)]) =
      List.zipWith (fun (p : ℝ × ℝ) (w : ℝ) => [p.1 * w, p.2 * w, w])
        (cartSegment r dt n) (wtsSegment dt n) := by
  rw [cartSegment, wtsSegment, zipWith_map_same]
  refine map_eq_map_of_eq _ _ _ ?_
  intro i _
  rcases Nat.mod_two_eq_zero_or_one i with h | h
  · simp [segPoint, segWt, h]
  · have h0 : ¬ i % 2 = 0 := by omega
    simp only [segPoint, segWt, h, Nat.cast_one, one_mul,
      if_neg (one_ne_zero : (1 : ℕ) ≠ 0), List.cons.injEq, and_true]
    refine ⟨by field_simp, by field_simp, by ring⟩

open Real in
/-- C3: the homogeneous-form invariant of the Rational Conic Constructor.
Every curve returned by `circle` (either parametrization, either tag
spelling) and by `circle_segment` (any positive angle below a full turn;
`theta = 2π` delegates to the circle and non-positive angles raise, so no
other valid angle returns a curve) is flagged rational and stores each
control point as the point's Cartesian coordinates multiplied by its
nonzero weight, the weight sitting in the extra third column.  The
Cartesian control polygons are given in closed form and pinned
geometrically: the quadratic polygons alternate circle points at the
sample angles with the intersections of the two neighbouring tangent
lines, and the quartic polygon's weight-1 points lie on the axis tangent
lines. -/
theorem C3_homogeneous_control_points (r theta : ℝ) (hr : 0 < r)
    (h1 : 0 < theta) (h2 : theta < 2 * π) :
    (∀ c, circle r "p2C0" = .ok c → homogeneousForm c (cartCircle2 r) wtsCircle2) ∧
    (∀ c, circle r "C0p2" = .ok c → homogeneousForm c (cartCircle2 r) wtsCircle2) ∧
    (∀ c, circle r "p4C1" = .ok c → homogeneousForm c (cartCircle4 r) wtsCircle4) ∧
    (∀ c, circle r "C1p4" = .ok c → homogeneousForm c (cartCircle4 r) wtsCircle4) ∧
    (∀ c, circle_segment theta r = .ok c →
      homogeneousForm c
        (cartSegment r (theta / ((⌈theta / (2 * π / 3)⌉ : ℤ) : ℝ) / 2)
          ((⌈theta / (2 * π / 3)⌉ - 1) * 2 + 3).toNat)
        (wtsSegment (theta / ((⌈theta / (2 * π / 3)⌉ : ℤ) : ℝ) / 2)
          ((⌈theta / (2 * π / 3)⌉ - 1) * 2 + 3).toNat)) ∧
    pinnedPolygon r (π / 4) (cartCircle2 r) ∧
    pinnedQuartic r (cartCircle4 r) ∧
    pinnedPolygon r (theta / ((⌈theta / (2 * π / 3)⌉ : ℤ) : ℝ) / 2)
      (cartSegment r (theta / ((⌈theta / (2 * π / 3)⌉ : ℤ) : ℝ) / 2)
        ((⌈theta / (2 * π / 3)⌉ - 1) * 2 + 3).toNat) := by
  have hcdt : Real.cos (theta / ((⌈theta / (2 * π / 3)⌉ : ℤ) : ℝ) / 2) ≠ 0 :=
    ne_of_gt (seg_cos_dt_pos theta h1)
  have h2c0 : ∀ c, circle r "p2C0" = .ok c →
      homogeneousForm c (cartCircle2 r) wtsCircle2 := by
    intro c hc
    rw [circle_p2C0_eq r hr] at hc
    obtain rfl : _ = c := (Except.ok.injEq _ _).mp hc
    exact ⟨rfl, wts2_ne, circle2_rows r⟩
  have h4c1 : ∀ c, circle r "p4C1" = .ok c →
      homogeneousForm c (cartCircle4 r) wtsCircle4 := by
    intro c hc
    rw [circle_p4C1_eq r hr] at hc
    obtain rfl : _ = c := (Except.ok.injEq _ _).mp hc
    exact ⟨rfl, wts4_ne, circle4_rows r⟩
  refine ⟨h2c0, ?_, h4c1, ?_, ?_, cart2_pinned r, cart4_pinned r,
    segment_pinned r _ hcdt _⟩
  · rw [(circle_tag_aliases r).1]
    exact h2c0
  · rw [(circle_tag_aliases r).2]
    exact h4c1
  · intro c hc
    rw [circle_segment_pos_eq theta r hr h1 h2] at hc
    unfold mkCurve at hc
    split at hc
    · obtain rfl : _ = c := (Except.ok.injEq _ _).mp hc
      exact ⟨rfl, wtsSegment_ne _ hcdt _, segment_rows r _ hcdt _⟩
    · exact absurd hc (by simp)

open Real in
/-- C3 (witness): the homogeneous-form theorem applied to radius `1` and
the half-turn arc `theta = π`. -/
theorem C3_homogeneous_witness :
    ((0 : ℝ) < 1 ∧ (0 : ℝ) < π ∧ π < 2 * π) ∧
    ((∀ c, circle 1 "p2C0" = .ok c → homogeneousForm c (cartCircle2 1) wtsCircle2) ∧
     (∀ c, circle 1 "C0p2" = .ok c → homogeneousForm c (cartCircle2 1) wtsCircle2) ∧
     (∀ c, circle 1 "p4C1" = .ok c → homogeneousForm c (cartCircle4 1) wtsCircle4) ∧
     (∀ c, circle 1 "C1p4" = .ok c → homogeneousForm c (cartCircle4 1) wtsCircle4) ∧
     (∀ c, circle_segment π 1 = .ok c →
       homogeneousForm c
         (cartSegment 1 (π / ((⌈π / (2 * π / 3)⌉ : ℤ) : ℝ) / 2)
           ((⌈π / (2 * π / 3)⌉ - 1) * 2 + 3).toNat)
         (wtsSegment (π / ((⌈π / (2 * π / 3)⌉ : ℤ) : ℝ) / 2)
           ((⌈π / (2 * π / 3)⌉ - 1) * 2 + 3).toNat)) ∧
     pinnedPolygon 1 (π / 4) (cartCircle2 1) ∧
     pinnedQuartic 1 (cartCircle4 1) ∧
     pinnedPolygon 1 (π / ((⌈π / (2 * π / 3)⌉ : ℤ) : ℝ) / 2)
       (cartSegment 1 (π / ((⌈π / (2 * π / 3)⌉ : ℤ) : ℝ) / 2)
         ((⌈π / (2 * π / 3)⌉ - 1) * 2 + 3).toNat)) :=
  ⟨⟨by norm_num, Real.pi_pos, by linarith [Real.pi_pos]⟩,
   C3_homogeneous_control_points 1 π (by norm_num) Real.pi_pos
     (by linarith [Real.pi_pos])⟩

section
open Real

/-- C8: the full circle supports exactly the two parametrizations.  The
quadratic tag (`p2C0`, also spelled `C0p2`) yields a rational curve with
exactly 8 control points whose weights alternate between four `1`s and four
`1/√2`, on an order-3 periodic (continuity 0) basis whose interior knots are
doubled every quarter-turn; the quartic tag (`p4C1`, also spelled `C1p4`)
yields 12 control points built from `w = 2√2/3`, `a = 1/(2√2)` and
`b = (4√2-1)/6` on a C¹-periodic order-5 basis; and every other tag fails
with the `InvalidParametrization` error. -/
theorem C8_circle_parametrizations (r : ℝ) (ty : String) (hr : 0 < r)
    (hn1 : ty ≠ "p2C0") (hn2 : ty ≠ "C0p2") (hn3 : ty ≠ "p4C1") (hn4 : ty ≠ "C1p4") :
    circle r "p2C0" =
      .ok ⟨⟨3, [-(π / 2), 0, 0, π / 2, π / 2, π, π, 3 * (π / 2), 3 * (π / 2),
                2 * π, 2 * π, 5 * (π / 2)], 0⟩,
           [[r, 0, 1],
            [r * (1 / Real.sqrt 2), r * (1 / Real.sqrt 2), 1 / Real.sqrt 2],
            [0, r, 1],
            [-(r * (1 / Real.sqrt 2)), r * (1 / Real.sqrt 2), 1 / Real.sqrt 2],
            [-r, 0, 1],
            [-(r * (1 / Real.sqrt 2)), -(r * (1 / Real.sqrt 2)), 1 / Real.sqrt 2],
            [0, -r, 1],
            [r * (1 / Real.sqrt 2), -(r * (1 / Real.sqrt 2)), 1 / Real.sqrt 2]],
           true⟩ ∧
    circle r "C0p2" = circle r "p2C0" ∧
    circle r "p4C1" =
      .ok ⟨⟨5, [-(π / 2), -(π / 2), 0, 0, 0, π / 2, π / 2, π / 2, π, π, π,
                3 * (π / 2), 3 * (π / 2), 3 * (π / 2), 2 * π, 2 * π, 2 * π,
                5 * (π / 2), 5 * (π / 2)], 1⟩,
           [[r, -(r * (1 / 2 / Real.sqrt 2)), 1],
            [r, r * (1 / 2 / Real.sqrt 2), 1],
            [r * (1 / 6 * (4 * Real.sqrt 2 - 1)), r * (1 / 6 * (4 * Real.sqrt 2 - 1)),
             2 * Real.sqrt 2 / 3],
            [r * (1 / 2 / Real.sqrt 2), r, 1],
            [-(r * (1 / 2 / Real.sqrt 2)), r, 1],
            [-(r * (1 / 6 * (4 * Real.sqrt 2 - 1))), r * (1 / 6 * (4 * Real.sqrt 2 - 1)),
             2 * Real.sqrt 2 / 3],
            [-r, r * (1 / 2 / Real.sqrt 2), 1],
            [-r, -(r * (1 / 2 / Real.sqrt 2)), 1],
            [-(r * (1 / 6 * (4 * Real.sqrt 2 - 1))), -(r * (1 / 6 * (4 * Real.sqrt 2 - 1))),
             2 * Real.sqrt 2 / 3],
            [-(r * (1 / 2 / Real.sqrt 2)), -r, 1],
            [r * (1 / 2 / Real.sqrt 2), -r, 1],
            [r * (1 / 6 * (4 * Real.sqrt 2 - 1)), -(r * (1 / 6 * (4 * Real.sqrt 2 - 1))),
             2 * Real.sqrt 2 / 3]],
           true⟩ ∧
    circle r "C1p4" = circle r "p4C1" ∧
    circle r ty = .error .invalidParametrization :=
  ⟨circle_p2C0_eq r hr, (circle_tag_aliases r).1, circle_p4C1_eq r hr,
   (circle_tag_aliases r).2, by
    unfold circle
    rw [if_neg (not_le.mpr hr)]
    rw [if_neg (by simp [hn1, hn2])]
    rw [if_neg (by simp [hn3, hn4])]⟩

/-- C8 (witness): the parametrization theorem applied to radius `1` and the
unknown tag `"quadratic"`. -/
theorem C8_circle_parametrizations_witness :
    ((0 : ℝ) < 1 ∧ ("quadratic" : String) ≠ "p2C0" ∧ ("quadratic" : String) ≠ "C0p2" ∧
     ("quadratic" : String) ≠ "p4C1" ∧ ("quadratic" : String) ≠ "C1p4") ∧
    (circle 1 "p2C0" =
      .ok ⟨⟨3, [-(π / 2), 0, 0, π / 2, π / 2, π, π, 3 * (π / 2), 3 * (π / 2),
                2 * π, 2 * π, 5 * (π / 2)], 0⟩,
           [[(1 : ℝ), 0, 1],
            [(1 : ℝ) * (1 / Real.sqrt 2), (1 : ℝ) * (1 / Real.sqrt 2), 1 / Real.sqrt 2],
            [0, (1 : ℝ), 1],
            [-((1 : ℝ) * (1 / Real.sqrt 2)), (1 : ℝ) * (1 / Real.sqrt 2), 1 / Real.sqrt 2],
            [-(1 : ℝ), 0, 1],
            [-((1 : ℝ) * (1 / Real.sqrt 2)), -((1 : ℝ) * (1 / Real.sqrt 2)), 1 / Real.sqrt 2],
            [0, -(1 : ℝ), 1],
            [(1 : ℝ) * (1 / Real.sqrt 2), -((1 : ℝ) * (1 / Real.sqrt 2)), 1 / Real.sqrt 2]],
           true⟩ ∧
    circle 1 "C0p2" = circle 1 "p2C0" ∧
    circle 1 "p4C1" =
      .ok ⟨⟨5, [-(π / 2), -(π / 2), 0, 0, 0, π / 2, π / 2, π / 2, π, π, π,
                3 * (π / 2), 3 * (π / 2), 3 * (π / 2), 2 * π, 2 * π, 2 * π,
                5 * (π / 2), 5 * (π / 2)], 1⟩,
           [[(1 : ℝ), -((1 : ℝ) * (1 / 2 / Real.sqrt 2)), 1],
            [(1 : ℝ), (1 : ℝ) * (1 / 2 / Real.sqrt 2), 1],
            [(1 : ℝ) * (1 / 6 * (4 * Real.sqrt 2 - 1)), (1 : ℝ) * (1 / 6 * (4 * Real.sqrt 2 - 1)),
             2 * Real.sqrt 2 / 3],
            [(1 : ℝ) * (1 / 2 / Real.sqrt 2), (1 : ℝ), 1],
            [-((1 : ℝ) * (1 / 2 / Real.sqrt 2)), (1 : ℝ), 1],
            [-((1 : ℝ) * (1 / 6 * (4 * Real.sqrt 2 - 1))), (1 : ℝ) * (1 / 6 * (4 * Real.sqrt 2 - 1)),
             2 * Real.sqrt 2 / 3],
            [-(1 : ℝ), (1 : ℝ) * (1 / 2 / Real.sqrt 2), 1],
            [-(1 : ℝ), -((1 : ℝ) * (1 / 2 / Real.sqrt 2)), 1],
            [-((1 : ℝ) * (1 / 6 * (4 * Real.sqrt 2 - 1))), -((1 : ℝ) * (1 / 6 * (4 * Real.sqrt 2 - 1))),
             2 * Real.sqrt 2 / 3],
            [-((1 : ℝ) * (1 / 2 / Real.sqrt 2)), -(1 : ℝ), 1],
            [(1 : ℝ) * (1 / 2 / Real.sqrt 2), -(1 : ℝ), 1],
            [(1 : ℝ) * (1 / 6 * (4 * Real.sqrt 2 - 1)), -((1 : ℝ) * (1 / 6 * (4 * Real.sqrt 2 - 1))),
             2 * Real.sqrt 2 / 3]],
           true⟩ ∧
    circle 1 "C1p4" = circle 1 "p4C1" ∧
    circle 1 "quadratic" = .error .invalidParametrization) :=
  ⟨⟨by norm_num, by decide, by decide, by decide, by decide⟩,
   C8_circle_parametrizations 1 "quadratic" (by norm_num)
     (by decide) (by decide) (by decide) (by decide)⟩

end

open Real in
/-- C5: the claim (and the docstring, which admits any angle in
`[-2π, 2π]`) requires the angle to be partitioned into the minimum number of
spans of size at most `2π/3` — for `theta = -π` that is 2 spans and 5 control
points.  The code instead computes `knot_spans = int(ceil(theta/(2π/3)))`
without taking the absolute value, giving `-1` spans for `theta = -π`: the
control-point count `(knot_spans-1)*2+3` is `-1` (an empty list), the knot
vector collapses to two entries, and the basis/curve construction fails, so
no valid curve is produced for any negative angle.  This theorem evaluates
the embedding at the failing input. -/
theorem C5_negative_angle_invalid_construction :
    ⌈(-π) / (2 * π / 3)⌉ = -1 ∧ circle_segment (-π) 1 = .error .basisArity := by
  have hpi := Real.pi_pos
  have hks : ⌈(-π) / (2 * π / 3)⌉ = -1 := by
    have h1 : (-π) / (2 * π / 3) = -(3 / 2) := by
      field_simp
      ring
    rw [h1]
    rw [Int.ceil_eq_iff]
    constructor <;> norm_num
  refine ⟨hks, ?_⟩
  unfold circle_segment
  rw [if_neg (by rw [abs_neg, abs_of_pos hpi]; nlinarith)]
  rw [if_neg (by norm_num)]
  rw [if_neg (by nlinarith)]
  simp only [hks]
  norm_num [mkCurve, SBasis.numFns]

end Splipy
